import Mathlib

/-!
# gosubs: the Subber game and player accounting engine

A shallow embedding of `subber.go`, of the handler `setPlayer` of
`webserver_routes.go` and of `config.go`.

* `time.Time` is the signed count of nanoseconds from the zero instant, so
  `time.Time{}` is `0` and `IsZero` is the test `t = 0`.
* `time.Duration` and `int` are 64-bit two's-complement integers: they are
  integers here, and every addition the source performs is followed by
  `wrapInt64`; `time.Time.Sub` (behind `time.Since`) saturates.
* `map[string]Player` is an association list with `mapGet` / `mapSet`; a
  `range` loop visits the entries of the list in order.
* Every operation that calls `time.Now()` receives a clock `clk : Nat → Time`:
  `clk 0`, `clk 1`, ... are the readings in the order the operation asks for
  them (a loop gives its `i`-th iteration a reading of its own).
* An index-out-of-range fault is the result `none`.
* The logger and the mutex have no effect on the Game or the roster and are
  left out.
* `setPlayer` takes the parsed form and, as parameters, `strconv.Atoi` and
  `time.ParseDuration`; its result is the Subber it leaves and its reply.
* `loadConfig` takes what `json.Decoder.Decode` finds at the head of its input:
  a JSON value and the text after it, or a syntax error. Decoding follows the
  documented behaviour of `encoding/json` on JSON values; a nil slice and an
  empty slice are both the empty list.
-/

namespace Gosubs

/-! ## Time and 64-bit arithmetic -/

/-- Instants of `time.Time`, in nanoseconds from the zero instant. -/
abbrev Time := Int

/-- Values of `time.Duration`, in nanoseconds. -/
abbrev Duration := Int

/-- Smallest int64. -/
def minInt64 : Int := -9223372036854775808

/-- Largest int64. -/
def maxInt64 : Int := 9223372036854775807

/-- Reduction of an integer to the int64 it is stored as (two's complement). -/
def wrapInt64 (x : Int) : Int :=
  (x + 9223372036854775808) % 18446744073709551616 - 9223372036854775808

/-- Go `time.Time.IsZero`. -/
def Time.IsZero (t : Time) : Bool := t == 0

/-- Go `time.Time.Sub`: the duration `t - u`, saturated to the int64 range. -/
def Time.Sub (t u : Time) : Duration :=
  if maxInt64 < t - u then maxInt64
  else if t - u < minInt64 then minInt64
  else t - u

/-- Go `time.Since(t)`, i.e. `time.Now().Sub(t)`, with `now` the clock reading. -/
def Since (now t : Time) : Duration := Time.Sub now t

/-! ## Data model -/

structure Period where
  StartTime : Time
  EndTime : Time
deriving DecidableEq, Repr

structure Game where
  StartTime : Time
  EndTime : Time
  periods : List Period
deriving DecidableEq, Repr

/-- The source's `type GameState string`. -/
abbrev GameState := String

def GameStateNotStarted : GameState := "not_started"
def GameStateInProgress : GameState := "in_progress"
def GameStatePaused : GameState := "paused"
def GameStateFinished : GameState := "finished"

/-- Go `Game.State`. The index `len(g.periods)-1` is only evaluated behind the
guard `len(g.periods) > 0`. -/
def Game.State (g : Game) : GameState :=
  if g.periods.length == 0 then GameStateNotStarted
  else if decide (g.periods.length > 0) &&
      (match g.periods[g.periods.length - 1]? with
        | some p => Time.IsZero p.EndTime
        | none => false) then GameStateInProgress
  else if (!Time.IsZero g.StartTime) && (!Time.IsZero g.EndTime) then GameStateFinished
  else GameStatePaused

/-- Go `Game.CurrentPeriod`. -/
def Game.CurrentPeriod (g : Game) : Period :=
  let p : Period := { StartTime := 0, EndTime := 0 }
  if g.periods.length != 0 then
    match g.periods[g.periods.length - 1]? with
    | some q => { StartTime := q.StartTime, EndTime := q.EndTime }
    | none => p
  else p

structure Player where
  Name : String
  Number : Int
  PlayCount : Int
  PlayDuration : Duration
  Playing : Bool
  PlayStarted : Time
deriving DecidableEq, Repr

/-- The map index expression `players[name]` (comma-ok form). -/
def mapGet : List (String × Player) → String → Option Player
  | [], _ => none
  | (k, v) :: rest, name => if k = name then some v else mapGet rest name

/-- The map assignment `players[name] = p`. -/
def mapSet : List (String × Player) → String → Player → List (String × Player)
  | [], name, p => [(name, p)]
  | (k, v) :: rest, name, p =>
    if k = name then (k, p) :: rest else (k, v) :: mapSet rest name p

/-- The Subber: the Game and the roster `players`. -/
structure Subber where
  Game : Game
  players : List (String × Player)
deriving DecidableEq, Repr

/-- Go `NewSubber`: the roster is filled by `ps[player.Name] = player`. -/
def NewSubber (players : List Player) : Subber :=
  { Game := { StartTime := 0, EndTime := 0, periods := [] },
    players := players.foldl (fun ps player => mapSet ps player.Name player) [] }

/-! ## Player operations -/

/-- Go `Subber.PlayerReset`. -/
def PlayerReset (s : Subber) (name : String) : Subber :=
  match mapGet s.players name with
  | none => s
  | some p =>
    let q : Player :=
      { p with PlayCount := 0, PlayDuration := 0, Playing := false, PlayStarted := 0 }
    { s with players := mapSet s.players name q }

/-- Go `Subber.PlayerSet`. -/
def PlayerSet (s : Subber) (name : String) (playCount : Int) (playDuration : Duration) :
    Subber :=
  match mapGet s.players name with
  | none => s
  | some p =>
    let q : Player := { p with PlayCount := playCount, PlayDuration := playDuration }
    { s with players := mapSet s.players name q }

/-- Go `Subber.PlayerSubOn`, with `now` the reading of `time.Now()`. -/
def PlayerSubOn (s : Subber) (name : String) (now : Time) : Subber :=
  match mapGet s.players name with
  | none => s
  | some p =>
    let q : Player :=
      { p with Playing := true, PlayCount := wrapInt64 (p.PlayCount + 1), PlayStarted := now }
    { s with players := mapSet s.players name q }

/-- The record `PlayerSubOff` stores for a player `p` at the reading `now`. -/
def subOffPlayer (p : Player) (now : Time) : Player :=
  { (if !Time.IsZero p.PlayStarted then
      { p with PlayDuration := wrapInt64 (p.PlayDuration + Since now p.PlayStarted) }
     else p) with Playing := false, PlayStarted := 0 }

/-- Go `Subber.PlayerSubOff`, with `now` the reading behind `time.Since`. -/
def PlayerSubOff (s : Subber) (name : String) (now : Time) : Subber :=
  match mapGet s.players name with
  | none => s
  | some p => { s with players := mapSet s.players name (subOffPlayer p now) }

/-- The loop `for _, p := range s.players { s.PlayerReset(p.Name) }`, over the
entries the range visits. -/
def resetLoop : List (String × Player) → Subber → Subber
  | [], s => s
  | kv :: rest, s => resetLoop rest (PlayerReset s kv.2.Name)

/-- The loop `for _, p := range s.players { s.PlayerSubOff(p.Name) }`; its
iterations read `clk i`, `clk (i+1)`, ... -/
def subOffLoop (clk : Nat → Time) : List (String × Player) → Nat → Subber → Subber
  | [], _, s => s
  | kv :: rest, i, s => subOffLoop clk rest (i + 1) (PlayerSubOff s kv.2.Name (clk i))

/-! ## Game operations -/

/-- Go `Subber.StartGame`; `clk 0` and `clk 1` are its two readings. -/
def StartGame (s : Subber) (clk : Nat → Time) : Subber :=
  let p : Period := { StartTime := clk 0, EndTime := 0 }
  let s1 : Subber := { s with Game := { s.Game with periods := s.Game.periods ++ [p] } }
  let s2 : Subber := { s1 with Game := { s1.Game with StartTime := clk 1, EndTime := 0 } }
  resetLoop s2.players s2

/-- The assignment `periods[idx].EndTime = now`; `none` when `idx` is out of range. -/
def setEndTime (periods : List Period) (idx : Int) (now : Time) : Option (List Period) :=
  if 0 ≤ idx ∧ idx < periods.length then
    some (periods.modify (fun p => { p with EndTime := now }) idx.toNat)
  else none

/-- Go `Subber.PauseGame`; `clk 0` closes the period, the loop reads from `clk 1`. -/
def PauseGame (s : Subber) (clk : Nat → Time) : Option Subber :=
  let idx : Int := (s.Game.periods.length : Int) - 1
  match setEndTime s.Game.periods idx (clk 0) with
  | none => none
  | some ps =>
    let s1 : Subber := { s with Game := { s.Game with periods := ps } }
    some (subOffLoop clk s1.players 1 s1)

/-- Go `Subber.ResumeGame`; `clk 0` opens the period, the loop reads from `clk 1`. -/
def ResumeGame (s : Subber) (clk : Nat → Time) : Subber :=
  let p : Period := { StartTime := clk 0, EndTime := 0 }
  let s1 : Subber := { s with Game := { s.Game with periods := s.Game.periods ++ [p] } }
  subOffLoop clk s1.players 1 s1

/-- Go `Subber.EndGame`; `clk 0` closes the period, `clk 1` is the Game's end,
the loop reads from `clk 2`. -/
def EndGame (s : Subber) (clk : Nat → Time) : Option Subber :=
  let idx : Int := (s.Game.periods.length : Int) - 1
  match setEndTime s.Game.periods idx (clk 0) with
  | none => none
  | some ps =>
    let s1 : Subber := { s with Game := { s.Game with periods := ps } }
    let s2 : Subber := { s1 with Game := { s1.Game with EndTime := clk 1 } }
    some (subOffLoop clk s2.players 2 s2)

/-- Go `Subber.ResetGame`. -/
def ResetGame (s : Subber) : Subber :=
  let s1 : Subber := { s with Game := { StartTime := 0, EndTime := 0, periods := [] } }
  resetLoop s1.players s1

/-! ## ListPlayers -/

/-- The copy `ListPlayers` appends for a stored player `p` at the reading `now`. -/
def livePlayer (p : Player) (now : Time) : Player :=
  if p.Playing then
    { p with PlayDuration := wrapInt64 (p.PlayDuration + Since now p.PlayStarted) }
  else p

/-- The loop of `ListPlayers` that fills the slice; its iterations read
`clk i`, `clk (i+1)`, ... -/
def liveLoop (clk : Nat → Time) : List (String × Player) → Nat → List Player
  | [], _ => []
  | kv :: rest, i => livePlayer kv.2 (clk i) :: liveLoop clk rest (i + 1)

/-- Go's `a < b` on strings, the lexicographic order: the relation `a < b` of
`String`, in a form that evaluates. -/
def stringLess (a b : String) : Bool := decide (a.toList < b.toList)

/-- Insertion of `p` before the first element that `p` is `less` than, with
`less` the comparison `players[i].Name < players[j].Name` of `ListPlayers`. -/
def insertByName (p : Player) : List Player → List Player
  | [] => [p]
  | q :: rest =>
    if stringLess p.Name q.Name then p :: q :: rest else q :: insertByName p rest

/-- The call `sort.Slice(players, less)` of `ListPlayers`, as an insertion sort. -/
def sortByName : List Player → List Player
  | [] => []
  | p :: rest => insertByName p (sortByName rest)

/-- Go `Subber.ListPlayers`. -/
def ListPlayers (s : Subber) (clk : Nat → Time) : List Player :=
  sortByName (liveLoop clk s.players 0)

/-! ## Sequences of operations -/

/-- One call on the Subber, with the clock it reads. -/
inductive Op where
  | StartGame (clk : Nat → Time)
  | PauseGame (clk : Nat → Time)
  | ResumeGame (clk : Nat → Time)
  | EndGame (clk : Nat → Time)
  | ResetGame
  | PlayerReset (name : String)
  | PlayerSet (name : String) (playCount : Int) (playDuration : Duration)
  | PlayerSubOn (name : String) (now : Time)
  | PlayerSubOff (name : String) (now : Time)

/-- The state after one call; `none` when the call faults. -/
def step (s : Subber) : Op → Option Subber
  | .StartGame clk => some (StartGame s clk)
  | .PauseGame clk => PauseGame s clk
  | .ResumeGame clk => some (ResumeGame s clk)
  | .EndGame clk => EndGame s clk
  | .ResetGame => some (ResetGame s)
  | .PlayerReset name => some (PlayerReset s name)
  | .PlayerSet name c d => some (PlayerSet s name c d)
  | .PlayerSubOn name now => some (PlayerSubOn s name now)
  | .PlayerSubOff name now => some (PlayerSubOff s name now)

/-- The state after a sequence of calls, none of which faults. A call that
faults does so before it writes anything, so where the fault is recovered the
states met are those of the sequence without that call. -/
def run (s : Subber) : List Op → Option Subber
  | [] => some s
  | op :: ops =>
    match step s op with
    | none => none
    | some s1 => run s1 ops

/-! ## The setPlayer request handler -/

/-- The form of a request, after `r.ParseForm()`: the values of `playerName`,
`playCount` and `playDuration`. -/
structure Form where
  playerName : List String
  playCount : List String
  playDuration : List String

/-- What a handler leaves on the response: the status it writes, or a fault
(an index out of range) before it writes any. -/
inductive Reply where
  | status (code : Nat)
  | fault
deriving DecidableEq, Repr

/-- Go `http.StatusOK`. -/
def StatusOK : Nat := 200

/-- Go `http.StatusBadRequest`. -/
def StatusBadRequest : Nat := 400

/-- The loop `for idx, name := range names` of `setPlayer`, from index `idx`
on, with `strconv.Atoi` and `time.ParseDuration` as the parameters `atoi` and
`parseDuration`. The reply is `none` when the loop runs to its end and the reply
of the `return` that leaves it otherwise. -/
def setPlayerLoop (atoi : String → Option Int) (parseDuration : String → Option Duration)
    (playCounts playDurations : List String) :
    List String → Nat → Subber → Subber × Option Reply
  | [], _, s => (s, none)
  | name :: rest, idx, s =>
    match playCounts[idx]? with
    | none => (s, some Reply.fault)
    | some c =>
      match atoi c with
      | none => (s, some (Reply.status StatusBadRequest))
      | some count =>
        match playDurations[idx]? with
        | none => (s, some Reply.fault)
        | some d =>
          match parseDuration d with
          | none => (s, some (Reply.status StatusBadRequest))
          | some duration =>
            setPlayerLoop atoi parseDuration playCounts playDurations rest (idx + 1)
              (PlayerSet s name count duration)

/-- Go `WebServer.setPlayer` on the Subber `s`: the Subber it leaves and its
reply. `form` is `none` when `r.ParseForm()` fails. The page rendered after
the loop only reads the Subber. -/
def setPlayer (atoi : String → Option Int) (parseDuration : String → Option Duration)
    (s : Subber) (form : Option Form) : Subber × Reply :=
  match form with
  | none => (s, Reply.status StatusBadRequest)
  | some f =>
    if f.playerName.length ≠ f.playCount.length ∧
        f.playerName.length ≠ f.playDuration.length then
      (s, Reply.status StatusBadRequest)
    else
      match setPlayerLoop atoi parseDuration f.playCount f.playDuration f.playerName 0 s with
      | (s1, some reply) => (s1, reply)
      | (s1, none) => (s1, Reply.status StatusOK)

/-- The value of a non-empty string of decimal digits. -/
def parseDigits : List Char → Option Nat
  | [] => none
  | c :: cs =>
    (c :: cs).foldl
      (fun acc ch => acc.bind (fun n => if ch.isDigit then some (n * 10 + (ch.toNat - 48)) else none))
      (some 0)

/-- Go `strconv.Atoi` with a 64-bit `int`: an optional sign, decimal digits,
and a value in the int64 range. -/
def Atoi (s : String) : Option Int :=
  match s.toList with
  | '-' :: ds =>
    (parseDigits ds).bind (fun n => if (n : Int) ≤ 9223372036854775808 then some (-(n : Int)) else none)
  | '+' :: ds =>
    (parseDigits ds).bind (fun n => if (n : Int) ≤ maxInt64 then some (n : Int) else none)
  | ds =>
    (parseDigits ds).bind (fun n => if (n : Int) ≤ maxInt64 then some (n : Int) else none)

/-- Go `time.ParseDuration` on the strings made of decimal digits followed by
the unit `s` (whole seconds); every other string is refused here, which is
what `time.ParseDuration` does with the other strings used below. -/
def parseDurationSeconds (s : String) : Option Duration :=
  match s.toList.reverse with
  | 's' :: ds =>
    (parseDigits ds.reverse).bind
      (fun n => if n ≤ 9223372036 then some ((n : Int) * 1000000000) else none)
  | _ => none

/-! ## Configuration -/

/-- Go `Config`. -/
structure Config where
  Players : List Player
deriving DecidableEq, Repr

/-- Go `DefaultConfiguration`. -/
def DefaultConfiguration : Config := { Players := [] }

/-- A JSON value as `encoding/json` reads it: `int` is a number written
without fraction or exponent, by its value; `real` is any other number. -/
inductive JSON where
  | null
  | bool (b : Bool)
  | int (n : Int)
  | real
  | str (s : String)
  | arr (items : List JSON)
  | obj (members : List (String × JSON))

/-- The input of `loadConfig` as `json.Decoder.Decode` reads it: `malformed`
when the input does not begin with a JSON value (it is empty, or has a syntax
error before the first value ends), and otherwise the first JSON value and the
text after it, which `Decode` does not read. -/
inductive Document where
  | malformed
  | value (v : JSON) (trailing : String)

/-- The input is one JSON value, followed by white space at most. -/
def Document.WellFormed : Document → Bool
  | .malformed => false
  | .value _ trailing =>
    trailing.toList.all (fun c => c = ' ' ∨ c = '\t' ∨ c = '\n' ∨ c = '\r')

/-- What decoding a JSON value into a Go value comes to: the Go value,
`error` when `Decode` returns an error, `outside` when the document asks for
what this embedding leaves out (the parser of `time.Time`, a slice that is
decoded twice). -/
inductive Decoded (α : Type) where
  | ok (a : α)
  | error
  | outside
deriving DecidableEq, Repr

/-- The next decoding step, taken only when nothing has failed yet. -/
def Decoded.andThen {α β : Type} (d : Decoded α) (f : α → Decoded β) : Decoded β :=
  match d with
  | .ok a => f a
  | .error => .error
  | .outside => .outside

/-- Folding of a key of `encoding/json`: ASCII letters to upper case, and the
two letters outside ASCII that fold to an ASCII letter (long s, Kelvin sign). -/
def foldName (key : String) : List Char :=
  key.toList.map (fun c =>
    if c = 'ſ' then 'S' else if c = 'K' then 'K' else c.toUpper)

/-- A JSON value into a Go `string`. -/
def decodeString (v : JSON) (old : String) : Decoded String :=
  match v with
  | .null => .ok old
  | .str s => .ok s
  | _ => .error

/-- A JSON value into a Go `int` or `time.Duration` (64 bits). -/
def decodeInt (v : JSON) (old : Int) : Decoded Int :=
  match v with
  | .null => .ok old
  | .int n => if minInt64 ≤ n ∧ n ≤ maxInt64 then .ok n else .error
  | _ => .error

/-- A JSON value into a Go `bool`. -/
def decodeBool (v : JSON) (old : Bool) : Decoded Bool :=
  match v with
  | .null => .ok old
  | .bool b => .ok b
  | _ => .error

/-- A JSON value into a Go `time.Time`, which decodes itself: `null` changes
nothing, a string goes to the parser of `time.Time` (left out), anything else
is an error. -/
def decodeTime (v : JSON) (old : Time) : Decoded Time :=
  match v with
  | .null => .ok old
  | .str _ => .outside
  | _ => .error

/-- One member of a JSON object into the `Player` field its key names (by
folded name); a key that names no field is skipped. -/
def decodePlayerMember (d : Decoded Player) (m : String × JSON) : Decoded Player :=
  d.andThen (fun p =>
    if foldName m.1 = foldName "Name" then
      (decodeString m.2 p.Name).andThen (fun x => .ok { p with Name := x })
    else if foldName m.1 = foldName "Number" then
      (decodeInt m.2 p.Number).andThen (fun x => .ok { p with Number := x })
    else if foldName m.1 = foldName "PlayCount" then
      (decodeInt m.2 p.PlayCount).andThen (fun x => .ok { p with PlayCount := x })
    else if foldName m.1 = foldName "PlayDuration" then
      (decodeInt m.2 p.PlayDuration).andThen (fun x => .ok { p with PlayDuration := x })
    else if foldName m.1 = foldName "Playing" then
      (decodeBool m.2 p.Playing).andThen (fun x => .ok { p with Playing := x })
    else if foldName m.1 = foldName "PlayStarted" then
      (decodeTime m.2 p.PlayStarted).andThen (fun x => .ok { p with PlayStarted := x })
    else .ok p)

/-- A JSON value into a Go `Player`. -/
def decodePlayer (v : JSON) (old : Player) : Decoded Player :=
  match v with
  | .null => .ok old
  | .obj members => members.foldl decodePlayerMember (.ok old)
  | _ => .error

/-- The zero value of `Player`. -/
def zeroPlayer : Player :=
  { Name := "", Number := 0, PlayCount := 0, PlayDuration := 0, Playing := false,
    PlayStarted := 0 }

/-- The items of a JSON array into the elements of a fresh slice of `Player`. -/
def decodeItems : List JSON → Decoded (List Player)
  | [] => .ok []
  | item :: rest =>
    (decodePlayer item zeroPlayer).andThen (fun p =>
      (decodeItems rest).andThen (fun ps => .ok (p :: ps)))

/-- A JSON value into the Go slice `Players`: `null` gives the nil slice, an
array gives its elements; an array into a slice that already has elements
reuses their memory and is left out. -/
def decodePlayers (v : JSON) (old : List Player) : Decoded (List Player) :=
  match v with
  | .null => .ok []
  | .arr items => if old = [] then decodeItems items else .outside
  | _ => .error

/-- One member of a JSON object into `Config`, whose one field has the JSON
name `players`. -/
def decodeConfigMember (d : Decoded Config) (m : String × JSON) : Decoded Config :=
  d.andThen (fun c =>
    if foldName m.1 = foldName "players" then
      (decodePlayers m.2 c.Players).andThen (fun ps => .ok { Players := ps })
    else .ok c)

/-- A JSON value into a Go `Config`. -/
def decodeConfig (v : JSON) (old : Config) : Decoded Config :=
  match v with
  | .null => .ok old
  | .obj members => members.foldl decodeConfigMember (.ok old)
  | _ => .error

/-- What `loadConfig` returns: the Config, and whether the error is non-nil. -/
structure Loaded where
  cfg : Config
  failed : Bool
deriving DecidableEq, Repr

/-- Go `loadConfig`; `none` for a document outside the embedding. -/
def loadConfig (input : Document) : Option Loaded :=
  let cfg := DefaultConfiguration
  match input with
  | .malformed => some { cfg := { Players := [] }, failed := true }
  | .value v _ =>
    match decodeConfig v cfg with
    | .ok cfg1 => some { cfg := cfg1, failed := false }
    | .error => some { cfg := { Players := [] }, failed := true }
    | .outside => none

/-! ## What the theorems speak of -/

/-- A clock all of whose readings are `t`. -/
def constClock (t : Time) : Nat → Time := fun _ => t

/-- The roster is a map whose keys are the players' names: no key occurs
twice, and every entry is stored under its own `Name`. -/
def RosterOK (m : List (String × Player)) : Prop :=
  (m.map Prod.fst).Nodup ∧ ∀ kv ∈ m, kv.2.Name = kv.1

instance (m : List (String × Player)) : Decidable (RosterOK m) :=
  inferInstanceAs (Decidable ((m.map Prod.fst).Nodup ∧ ∀ kv ∈ m, kv.2.Name = kv.1))

/-- The record `PlayerReset` stores for a player `p`. -/
def resetPlayer (p : Player) : Player :=
  { p with PlayCount := 0, PlayDuration := 0, Playing := false, PlayStarted := 0 }

/-- The roster in which the entry at position `j` has been subbed off at the
reading `clk (i + j)`. -/
def subOffAll (clk : Nat → Time) : List (String × Player) → Nat → List (String × Player)
  | [], _ => []
  | kv :: rest, i => (kv.1, subOffPlayer kv.2 (clk i)) :: subOffAll clk rest (i + 1)

/-- A clock whose `i`-th reading is `t + i`. -/
def tickClock (t : Time) : Nat → Time := fun i => t + i

/-- The fields of a player that `ListPlayers` copies as stored. -/
def storedView (p : Player) : String × Int × Int × Bool × Time :=
  (p.Name, p.Number, p.PlayCount, p.Playing, p.PlayStarted)

/-- The player invariant of the data model: playing iff `PlayStarted` is set. -/
def PlayerOK (p : Player) : Prop := p.Playing = true ↔ p.PlayStarted ≠ 0

instance (p : Player) : Decidable (PlayerOK p) :=
  inferInstanceAs (Decidable (p.Playing = true ↔ p.PlayStarted ≠ 0))

/-- The play of `p` up to the reading `t` fits the int64 range: the stored
duration is an int64, and neither the time elapsed since `PlayStarted` nor its
sum with the stored duration exceeds the largest Duration. -/
def InRangeUntil (p : Player) (t : Time) : Prop :=
  minInt64 ≤ p.PlayDuration ∧ t - p.PlayStarted ≤ maxInt64 ∧
    p.PlayDuration + (t - p.PlayStarted) ≤ maxInt64

instance (p : Player) (t : Time) : Decidable (InRangeUntil p t) :=
  inferInstanceAs (Decidable (minInt64 ≤ p.PlayDuration ∧ t - p.PlayStarted ≤ maxInt64 ∧
    p.PlayDuration + (t - p.PlayStarted) ≤ maxInt64))

/-- Every clock reading of the call is a set (non-zero) timestamp. -/
def Op.ClockSet : Op → Prop
  | .StartGame clk => ∀ i, clk i ≠ 0
  | .PauseGame clk => ∀ i, clk i ≠ 0
  | .ResumeGame clk => ∀ i, clk i ≠ 0
  | .EndGame clk => ∀ i, clk i ≠ 0
  | .ResetGame => True
  | .PlayerReset _ => True
  | .PlayerSet _ _ _ => True
  | .PlayerSubOn _ now => now ≠ 0
  | .PlayerSubOff _ now => now ≠ 0

/-- Every player of the roster satisfies the player invariant. -/
def AllPlayersOK (s : Subber) : Prop := ∀ kv ∈ s.players, PlayerOK kv.2

/-- The period invariant of the data model: every period but the last is closed. -/
def PeriodsOK (periods : List Period) : Prop := ∀ p ∈ periods.dropLast, p.EndTime ≠ 0

instance (periods : List Period) : Decidable (PeriodsOK periods) :=
  inferInstanceAs (Decidable (∀ p ∈ periods.dropLast, p.EndTime ≠ 0))

/-- The calls that open a period: `StartGame` and `ResumeGame`. -/
def Op.opensPeriod : Op → Bool
  | .StartGame _ => true
  | .ResumeGame _ => true
  | _ => false

/-- The state after a sequence of calls, none of which faults, in which a
period is opened only while the Game is not InProgress (no period is open). -/
def runInOrder (s : Subber) : List Op → Option Subber
  | [] => some s
  | op :: ops =>
    if op.opensPeriod = true ∧ s.Game.State = GameStateInProgress then none
    else
      match step s op with
      | none => none
      | some s1 => runInOrder s1 ops

/-- The entries of a form before its first malformed entry, parsed. -/
def leadingEntries (atoi : String → Option Int) (parseDuration : String → Option Duration) :
    List String → List String → List String → List (String × Int × Duration)
  | name :: names, c :: cs, d :: ds =>
    match atoi c, parseDuration d with
    | some count, some duration =>
      (name, count, duration) :: leadingEntries atoi parseDuration names cs ds
    | _, _ => []
  | _, _, _ => []

/-- `PlayerSet` for each entry of a list, in order. -/
def setEntries (s : Subber) (entries : List (String × Int × Duration)) : Subber :=
  entries.foldl (fun acc e => PlayerSet acc e.1 e.2.1 e.2.2) s

/-- The JSON object of one player entry, name and number. -/
def entryDoc (e : String × Int) : JSON :=
  .obj [("name", .str e.1), ("number", .int e.2)]

/-- The configuration document with the given player entries. -/
def configDoc (entries : List (String × Int)) : JSON :=
  .obj [("players", .arr (entries.map entryDoc))]

/-- The player a configuration entry stands for. -/
def entryPlayer (e : String × Int) : Player :=
  { Name := e.1, Number := e.2, PlayCount := 0, PlayDuration := 0, Playing := false,
    PlayStarted := 0 }

/-- The JSON value `v` is a player entry of name `e.1` and number `e.2`: an
object of two members, a string under a key that names the field `Name` and an
integer under a key that names the field `Number`, in either order. -/
def IsEntryDoc (v : JSON) (e : String × Int) : Prop :=
  ∃ kname knumber : String,
    foldName kname = foldName "Name" ∧ foldName knumber = foldName "Number" ∧
    (v = .obj [(kname, .str e.1), (knumber, .int e.2)] ∨
     v = .obj [(knumber, .int e.2), (kname, .str e.1)])

/-- The JSON value `v` is a configuration document with the player entries
`entries`: an object with one member that names the field `players`, whose
value is the array of the entries, among members that name no field. -/
def IsConfigDoc (v : JSON) (entries : List (String × Int)) : Prop :=
  ∃ (kplayers : String) (before after : List (String × JSON)) (items : List JSON),
    foldName kplayers = foldName "players" ∧
    (∀ m ∈ before, foldName m.1 ≠ foldName "players") ∧
    (∀ m ∈ after, foldName m.1 ≠ foldName "players") ∧
    List.Forall₂ IsEntryDoc items entries ∧
    v = .obj (before ++ (kplayers, .arr items) :: after)

/-! ## Concrete rosters and states -/

/-- The roster of one player of the spec's scenario. -/
def kunio : Player :=
  { Name := "kunio", Number := 86, PlayCount := 0, PlayDuration := 0,
    Playing := false, PlayStarted := 0 }

/-- A second player, for rosters of two. -/
def bob : Player :=
  { Name := "bob", Number := 7, PlayCount := 0, PlayDuration := 0,
    Playing := false, PlayStarted := 0 }

/-- A state with a game under way and `kunio` on the field:
`StartGame` at 1000 and 1001, then `PlayerSubOn("kunio")` at 2000. -/
def kunioPlaying : Subber :=
  { Game := { StartTime := 1001, EndTime := 0,
              periods := [{ StartTime := 1000, EndTime := 0 }] },
    players := [("kunio", { kunio with PlayCount := 1, Playing := true, PlayStarted := 2000 }),
                ("bob", bob)] }

/-- The state after `PlayerSet("kunio", 0, d)` on the roster of `kunio` alone,
with `d` the largest Duration (the form value `9223372036854775807ns`). -/
def longPlayed : Subber := PlayerSet (NewSubber [kunio]) "kunio" 0 9223372036854775807

/-- The roster of `kunio` alone after `PlayerSet("kunio", 0, d)` with `d` ten
nanoseconds short of the largest Duration and `PlayerSubOn("kunio")`. -/
def nearOverflow : Subber :=
  PlayerSubOn (PlayerSet (NewSubber [kunio]) "kunio" 0 9223372036854775800)
    "kunio" 63871000000000000000

/-- A roster seeded with a player marked as playing whose PlayStarted is unset. -/
def seededPlaying : Subber := NewSubber [{ kunio with Playing := true }]

/-- The state after `StartGame` (readings `t`, `t + 1`) and `EndGame` (readings
`t + 2000`, `t + 2001`, ...) on the roster of `kunio` alone, with
`t = 63871000000000001000`: a finished game. -/
def finishedGame : Subber :=
  { Game := { StartTime := 63871000000000001001, EndTime := 63871000000000003001,
              periods := [{ StartTime := 63871000000000001000, EndTime := 63871000000000003000 }] },
    players := [("kunio", kunio)] }

/-- The state after `ResumeGame` (readings `t`, `t + 1`, ...) on the fresh
Subber with the roster of `kunio` alone, with `t = 63871000000000001000`: a period is open,
the Game's StartTime is unset. -/
def resumedFresh : Subber :=
  { Game := { StartTime := 0, EndTime := 0,
              periods := [{ StartTime := 63871000000000001000, EndTime := 0 }] },
    players := [("kunio", kunio)] }

/-- The state `PauseGame` (readings 3000, 3001, ...) leaves after `kunioPlaying`. -/
def kunioPaused : Subber :=
  { Game := { StartTime := 1001, EndTime := 0,
              periods := [{ StartTime := 1000, EndTime := 3000 }] },
    players := [("kunio", { kunio with PlayCount := 1, PlayDuration := 1001 }),
                ("bob", bob)] }

/-- The state after `StartGame` is called twice, at `t` and at `t + 5000`
(`t = 63871000000000001000`), on the roster of `kunio` alone. -/
def startedTwice : Subber :=
  { Game := { StartTime := 63871000000000006001, EndTime := 0,
              periods := [{ StartTime := 63871000000000001000, EndTime := 0 },
                          { StartTime := 63871000000000006000, EndTime := 0 }] },
    players := [("kunio", kunio)] }

/-- The state after `StartGame` (readings from 1000), `PlayerSubOn("kunio")` at
2000, `PauseGame` (readings from 3000) and `ResumeGame` (readings from 4000). -/
def kunioResumed : Subber :=
  { Game := { StartTime := 1001, EndTime := 0,
              periods := [{ StartTime := 1000, EndTime := 3000 },
                          { StartTime := 4000, EndTime := 0 }] },
    players := [("kunio", { kunio with PlayCount := 1, PlayDuration := 1001 }),
                ("bob", bob)] }

/-! ## Arithmetic -/

theorem wrapInt64_eq_self {x : Int} (h1 : minInt64 ≤ x) (h2 : x ≤ maxInt64) :
    wrapInt64 x = x := by
  unfold wrapInt64
  unfold minInt64 at h1
  unfold maxInt64 at h2
  omega

theorem Time_Sub_eq_sub {t u : Time} (h1 : minInt64 ≤ t - u) (h2 : t - u ≤ maxInt64) :
    Time.Sub t u = t - u := by
  unfold Time.Sub
  rw [if_neg (not_lt.mpr h2), if_neg (not_lt.mpr h1)]

theorem Time_IsZero_iff (t : Time) : Time.IsZero t = true ↔ t = 0 := by
  simp [Time.IsZero]

theorem stringLess_iff (a b : String) : stringLess a b = true ↔ a < b := by
  simp [stringLess, String.lt_iff_toList_lt]

/-! ## The roster as a map -/

theorem mapGet_eq_none_iff (m : List (String × Player)) (name : String) :
    mapGet m name = none ↔ ∀ kv ∈ m, kv.1 ≠ name := by
  induction m with
  | nil => simp [mapGet]
  | cons kv rest ih =>
    obtain ⟨k, v⟩ := kv
    by_cases h : k = name
    · simp [mapGet, h]
    · simp [mapGet, h, ih]

theorem mapGet_some_mem {m : List (String × Player)} {name : String} {p : Player}
    (h : mapGet m name = some p) : (name, p) ∈ m := by
  induction m with
  | nil => simp [mapGet] at h
  | cons kv rest ih =>
    obtain ⟨k, v⟩ := kv
    by_cases hk : k = name
    · simp [mapGet, hk] at h
      simp [hk, h]
    · simp [mapGet, hk] at h
      exact List.mem_cons_of_mem _ (ih h)

theorem mapGet_mapSet_self (m : List (String × Player)) (name : String) (q : Player) :
    mapGet (mapSet m name q) name = some q := by
  induction m with
  | nil => simp [mapSet, mapGet]
  | cons kv rest ih =>
    obtain ⟨k, v⟩ := kv
    by_cases hk : k = name
    · simp [mapSet, mapGet, hk]
    · simp [mapSet, mapGet, hk, ih]

theorem mapGet_mapSet_other (m : List (String × Player)) {name other : String} (q : Player)
    (h : other ≠ name) : mapGet (mapSet m name q) other = mapGet m other := by
  induction m with
  | nil =>
    have h2 : ¬ name = other := fun e => h e.symm
    simp [mapSet, mapGet, h2]
  | cons kv rest ih =>
    obtain ⟨k, v⟩ := kv
    by_cases hk : k = name
    · have hko : ¬ k = other := fun e => h (e.symm.trans hk)
      have hno : ¬ name = other := fun e => h e.symm
      simp [mapSet, mapGet, hk, hno]
    · by_cases hko : k = other
      · subst hko
        simp [mapSet, mapGet, hk]
      · simp [mapSet, mapGet, hk, hko, ih]

theorem mapGet_append_of_not_mem (pre l : List (String × Player)) (name : String)
    (h : ∀ kv ∈ pre, kv.1 ≠ name) : mapGet (pre ++ l) name = mapGet l name := by
  induction pre with
  | nil => rfl
  | cons kv rest ih =>
    obtain ⟨k, v⟩ := kv
    have hk : ¬ k = name := h (k, v) (List.mem_cons_self _ _)
    simp only [List.cons_append, mapGet, hk, if_false]
    exact ih (fun kv hkv => h kv (List.mem_cons_of_mem _ hkv))

theorem mapSet_append_of_not_mem (pre l : List (String × Player)) (name : String)
    (q : Player) (h : ∀ kv ∈ pre, kv.1 ≠ name) :
    mapSet (pre ++ l) name q = pre ++ mapSet l name q := by
  induction pre with
  | nil => rfl
  | cons kv rest ih =>
    obtain ⟨k, v⟩ := kv
    have hk : ¬ k = name := h (k, v) (List.mem_cons_self _ _)
    have ih2 := ih (fun kv hkv => h kv (List.mem_cons_of_mem _ hkv))
    simp [mapSet, hk, ih2]

theorem mapSet_keys (m : List (String × Player)) (name : String) (q : Player) :
    (mapSet m name q).map Prod.fst =
      if name ∈ m.map Prod.fst then m.map Prod.fst else m.map Prod.fst ++ [name] := by
  induction m with
  | nil => simp [mapSet]
  | cons kv rest ih =>
    obtain ⟨k, v⟩ := kv
    by_cases hk : k = name
    · simp [mapSet, hk]
    · have hk2 : ¬ name = k := fun e => hk e.symm
      simp only [mapSet, hk, if_false, List.map_cons, ih, List.mem_cons, hk2, false_or]
      split <;> simp

theorem mem_mapSet {m : List (String × Player)} {name : String} {q : Player}
    {kv : String × Player} (h : kv ∈ mapSet m name q) : kv ∈ m ∨ kv = (name, q) := by
  induction m with
  | nil => simpa [mapSet] using h
  | cons e rest ih =>
    obtain ⟨k, v⟩ := e
    by_cases hk : k = name
    · simp only [mapSet, hk, if_true, List.mem_cons] at h
      rcases h with h | h
      · exact Or.inr h
      · exact Or.inl (List.mem_cons_of_mem _ h)
    · simp only [mapSet, hk, if_false, List.mem_cons] at h
      rcases h with h | h
      · exact Or.inl (by simp [h])
      · rcases ih h with h2 | h2
        · exact Or.inl (List.mem_cons_of_mem _ h2)
        · exact Or.inr h2

theorem RosterOK_mapSet {m : List (String × Player)} (hm : RosterOK m) (name : String)
    (q : Player) (hq : q.Name = name) : RosterOK (mapSet m name q) := by
  refine ⟨?_, ?_⟩
  · rw [mapSet_keys]
    split
    · exact hm.1
    · rename_i hn
      exact List.Nodup.append hm.1 (List.nodup_singleton _) (by simpa using hn)
  · intro kv hkv
    rcases mem_mapSet hkv with h | h
    · exact hm.2 kv h
    · rw [h]
      exact hq

theorem RosterOK_nil : RosterOK [] := by
  simp [RosterOK]

/-! ## The derived Game state -/

theorem GameState_distinct :
    GameStateNotStarted ≠ GameStateInProgress ∧ GameStateNotStarted ≠ GameStatePaused ∧
    GameStateNotStarted ≠ GameStateFinished ∧ GameStateInProgress ≠ GameStatePaused ∧
    GameStateInProgress ≠ GameStateFinished ∧ GameStatePaused ≠ GameStateFinished := by
  decide

theorem Game_State_nil {g : Game} (h : g.periods = []) : g.State = GameStateNotStarted := by
  simp [Game.State, h]

theorem Game_State_last {g : Game} {p : Period} (h : g.periods.getLast? = some p) :
    g.State =
      if p.EndTime = 0 then GameStateInProgress
      else if g.StartTime ≠ 0 ∧ g.EndTime ≠ 0 then GameStateFinished
      else GameStatePaused := by
  have hne : g.periods ≠ [] := by
    intro e
    simp [e] at h
  have hlen : 0 < g.periods.length := List.length_pos.mpr hne
  have hidx : g.periods[g.periods.length - 1]? = some p := by
    rw [← List.getLast?_eq_getElem?]
    exact h
  unfold Game.State
  rw [hidx]
  have h0 : ¬ g.periods.length = 0 := by omega
  by_cases hp : p.EndTime = 0
  · simp [h0, hlen, hp, Time.IsZero]
  · by_cases hs : g.StartTime = 0
    · simp [h0, hlen, hp, hs, Time.IsZero]
    · by_cases he : g.EndTime = 0
      · simp [h0, hlen, hp, hs, he, Time.IsZero]
      · simp [h0, hlen, hp, hs, he, Time.IsZero]

/-- C1: `Game.State` returns one of the four states, which are pairwise
distinct: NotStarted iff there is no period; InProgress iff the last period's
EndTime is unset; Finished iff the last period is closed and the Game's
StartTime and EndTime are both set; Paused iff the last period is closed and the
Game is not Finished. The state is a function of the three fields alone. -/
theorem Game_State_classification (g : Game) :
    (g.State = GameStateNotStarted ∨ g.State = GameStateInProgress ∨
      g.State = GameStatePaused ∨ g.State = GameStateFinished) ∧
    (GameStateNotStarted ≠ GameStateInProgress ∧ GameStateNotStarted ≠ GameStatePaused ∧
      GameStateNotStarted ≠ GameStateFinished ∧ GameStateInProgress ≠ GameStatePaused ∧
      GameStateInProgress ≠ GameStateFinished ∧ GameStatePaused ≠ GameStateFinished) ∧
    (g.State = GameStateNotStarted ↔ g.periods = []) ∧
    (g.State = GameStateInProgress ↔
      ∃ p, g.periods.getLast? = some p ∧ p.EndTime = 0) ∧
    (g.State = GameStateFinished ↔
      ∃ p, g.periods.getLast? = some p ∧ p.EndTime ≠ 0 ∧
        g.StartTime ≠ 0 ∧ g.EndTime ≠ 0) ∧
    (g.State = GameStatePaused ↔
      ∃ p, g.periods.getLast? = some p ∧ p.EndTime ≠ 0 ∧
        ¬ (g.StartTime ≠ 0 ∧ g.EndTime ≠ 0)) ∧
    (∀ g2 : Game, g2.StartTime = g.StartTime → g2.EndTime = g.EndTime →
      g2.periods = g.periods → g2.State = g.State) := by
  obtain ⟨d1, d2, d3, d4, d5, d6⟩ := GameState_distinct
  refine ⟨?_, ⟨d1, d2, d3, d4, d5, d6⟩, ?_, ?_, ?_, ?_, ?_⟩
  · rcases h : g.periods.getLast? with _ | p
    · exact Or.inl (Game_State_nil (List.getLast?_eq_none_iff.mp h))
    · rw [Game_State_last h]
      split
      · exact Or.inr (Or.inl rfl)
      · split
        · exact Or.inr (Or.inr (Or.inr rfl))
        · exact Or.inr (Or.inr (Or.inl rfl))
  · rcases h : g.periods.getLast? with _ | p
    · have hnil := List.getLast?_eq_none_iff.mp h
      simp [Game_State_nil hnil, hnil]
    · have hne : g.periods ≠ [] := by
        intro e
        simp [e] at h
      rw [Game_State_last h]
      constructor
      · intro hs
        exfalso
        split at hs
        · exact d1 hs.symm
        · split at hs
          · exact d3 hs.symm
          · exact d2 hs.symm
      · intro e
        exact absurd e hne
  · rcases h : g.periods.getLast? with _ | p
    · have hnil := List.getLast?_eq_none_iff.mp h
      rw [Game_State_nil hnil]
      constructor
      · intro e
        exact absurd e d1
      · rintro ⟨p, hp, _⟩
        cases hp
    · rw [Game_State_last h]
      constructor
      · intro hs
        refine ⟨p, rfl, ?_⟩
        by_contra hp
        rw [if_neg hp] at hs
        split at hs
        · exact d5 hs.symm
        · exact d4 hs.symm
      · rintro ⟨q, hq, hq0⟩
        cases hq
        rw [if_pos hq0]
  · rcases h : g.periods.getLast? with _ | p
    · have hnil := List.getLast?_eq_none_iff.mp h
      rw [Game_State_nil hnil]
      constructor
      · intro e
        exact absurd e d3
      · rintro ⟨p, hp, _⟩
        cases hp
    · rw [Game_State_last h]
      constructor
      · intro hs
        by_cases hp : p.EndTime = 0
        · rw [if_pos hp] at hs
          exact absurd hs d5
        · rw [if_neg hp] at hs
          by_cases hf : g.StartTime ≠ 0 ∧ g.EndTime ≠ 0
          · exact ⟨p, rfl, hp, hf.1, hf.2⟩
          · rw [if_neg hf] at hs
            exact absurd hs d6
      · rintro ⟨q, hq, hq0, hs, he⟩
        cases hq
        rw [if_neg hq0, if_pos ⟨hs, he⟩]
  · rcases h : g.periods.getLast? with _ | p
    · have hnil := List.getLast?_eq_none_iff.mp h
      rw [Game_State_nil hnil]
      constructor
      · intro e
        exact absurd e d2
      · rintro ⟨p, hp, _⟩
        cases hp
    · rw [Game_State_last h]
      constructor
      · intro hs
        by_cases hp : p.EndTime = 0
        · rw [if_pos hp] at hs
          exact absurd hs d4
        · rw [if_neg hp] at hs
          by_cases hf : g.StartTime ≠ 0 ∧ g.EndTime ≠ 0
          · rw [if_pos hf] at hs
            exact absurd hs.symm d6
          · exact ⟨p, rfl, hp, hf⟩
      · rintro ⟨q, hq, hq0, hf⟩
        cases hq
        rw [if_neg hq0, if_neg hf]
  · intro g2 h1 h2 h3
    unfold Game.State
    rw [h1, h2, h3]

/-! ## Player operations: what they store, and what they leave alone -/

theorem PlayerReset_of_get {s : Subber} {name : String} {p : Player}
    (h : mapGet s.players name = some p) :
    PlayerReset s name = { s with players := mapSet s.players name (resetPlayer p) } := by
  simp [PlayerReset, h, resetPlayer]

theorem PlayerSubOff_of_get {s : Subber} {name : String} {p : Player} (now : Time)
    (h : mapGet s.players name = some p) :
    PlayerSubOff s name now =
      { s with players := mapSet s.players name (subOffPlayer p now) } := by
  simp [PlayerSubOff, h]

theorem PlayerReset_Game (s : Subber) (name : String) : (PlayerReset s name).Game = s.Game := by
  unfold PlayerReset
  split <;> rfl

theorem PlayerSet_Game (s : Subber) (name : String) (c : Int) (d : Duration) :
    (PlayerSet s name c d).Game = s.Game := by
  unfold PlayerSet
  split <;> rfl

theorem PlayerSubOn_Game (s : Subber) (name : String) (now : Time) :
    (PlayerSubOn s name now).Game = s.Game := by
  unfold PlayerSubOn
  split <;> rfl

theorem PlayerSubOff_Game (s : Subber) (name : String) (now : Time) :
    (PlayerSubOff s name now).Game = s.Game := by
  unfold PlayerSubOff
  split <;> rfl

theorem resetLoop_Game (l : List (String × Player)) (s : Subber) :
    (resetLoop l s).Game = s.Game := by
  induction l generalizing s with
  | nil => rfl
  | cons kv rest ih =>
    simp only [resetLoop]
    rw [ih, PlayerReset_Game]

theorem subOffLoop_Game (clk : Nat → Time) (l : List (String × Player)) (i : Nat)
    (s : Subber) : (subOffLoop clk l i s).Game = s.Game := by
  induction l generalizing s i with
  | nil => rfl
  | cons kv rest ih =>
    simp only [subOffLoop]
    rw [ih, PlayerSubOff_Game]

theorem resetPlayer_Name (p : Player) : (resetPlayer p).Name = p.Name := rfl

theorem subOffPlayer_Name (p : Player) (now : Time) : (subOffPlayer p now).Name = p.Name := by
  unfold subOffPlayer
  split <;> rfl

theorem RosterOK_get_Name {m : List (String × Player)} (hm : RosterOK m) {name : String}
    {p : Player} (h : mapGet m name = some p) : p.Name = name :=
  hm.2 (name, p) (mapGet_some_mem h)

theorem RosterOK_PlayerReset {s : Subber} (hs : RosterOK s.players) (name : String) :
    RosterOK (PlayerReset s name).players := by
  unfold PlayerReset
  split
  · exact hs
  · rename_i p hp
    exact RosterOK_mapSet hs name _ (RosterOK_get_Name (p := p) hs hp)

theorem RosterOK_PlayerSet {s : Subber} (hs : RosterOK s.players) (name : String)
    (c : Int) (d : Duration) : RosterOK (PlayerSet s name c d).players := by
  unfold PlayerSet
  split
  · exact hs
  · rename_i p hp
    exact RosterOK_mapSet hs name _ (RosterOK_get_Name (p := p) hs hp)

theorem RosterOK_PlayerSubOn {s : Subber} (hs : RosterOK s.players) (name : String)
    (now : Time) : RosterOK (PlayerSubOn s name now).players := by
  unfold PlayerSubOn
  split
  · exact hs
  · rename_i p hp
    exact RosterOK_mapSet hs name _ (RosterOK_get_Name (p := p) hs hp)

theorem RosterOK_PlayerSubOff {s : Subber} (hs : RosterOK s.players) (name : String)
    (now : Time) : RosterOK (PlayerSubOff s name now).players := by
  unfold PlayerSubOff
  split
  · exact hs
  · rename_i p hp
    exact RosterOK_mapSet hs name _
      ((subOffPlayer_Name p now).trans (RosterOK_get_Name hs hp))

theorem RosterOK_resetLoop (l : List (String × Player)) {s : Subber}
    (hs : RosterOK s.players) : RosterOK (resetLoop l s).players := by
  induction l generalizing s with
  | nil => exact hs
  | cons kv rest ih => exact ih (RosterOK_PlayerReset hs _)

theorem RosterOK_subOffLoop (clk : Nat → Time) (l : List (String × Player)) (i : Nat)
    {s : Subber} (hs : RosterOK s.players) : RosterOK (subOffLoop clk l i s).players := by
  induction l generalizing s i with
  | nil => exact hs
  | cons kv rest ih => exact ih (i + 1) (RosterOK_PlayerSubOff hs _ _)

theorem RosterOK_NewSubber (players : List Player) : RosterOK (NewSubber players).players := by
  have key : ∀ (l : List Player) (m : List (String × Player)), RosterOK m →
      RosterOK (l.foldl (fun ps player => mapSet ps player.Name player) m) := by
    intro l
    induction l with
    | nil => intro m hm; exact hm
    | cons p rest ih =>
      intro m hm
      exact ih _ (RosterOK_mapSet hm p.Name p rfl)
  exact key players [] RosterOK_nil

theorem RosterOK_step {s s1 : Subber} (hs : RosterOK s.players) (op : Op)
    (h : step s op = some s1) : RosterOK s1.players := by
  cases op with
  | StartGame clk =>
    simp only [step, Option.some.injEq] at h
    rw [← h]
    exact RosterOK_resetLoop _ hs
  | PauseGame clk =>
    simp only [step, PauseGame] at h
    split at h
    · cases h
    · simp only [Option.some.injEq] at h
      rw [← h]
      exact RosterOK_subOffLoop _ _ _ hs
  | ResumeGame clk =>
    simp only [step, Option.some.injEq] at h
    rw [← h]
    exact RosterOK_subOffLoop _ _ _ hs
  | EndGame clk =>
    simp only [step, EndGame] at h
    split at h
    · cases h
    · simp only [Option.some.injEq] at h
      rw [← h]
      exact RosterOK_subOffLoop _ _ _ hs
  | ResetGame =>
    simp only [step, Option.some.injEq] at h
    rw [← h]
    exact RosterOK_resetLoop _ hs
  | PlayerReset name =>
    simp only [step, Option.some.injEq] at h
    rw [← h]
    exact RosterOK_PlayerReset hs _
  | PlayerSet name c d =>
    simp only [step, Option.some.injEq] at h
    rw [← h]
    exact RosterOK_PlayerSet hs _ _ _
  | PlayerSubOn name now =>
    simp only [step, Option.some.injEq] at h
    rw [← h]
    exact RosterOK_PlayerSubOn hs _ _
  | PlayerSubOff name now =>
    simp only [step, Option.some.injEq] at h
    rw [← h]
    exact RosterOK_PlayerSubOff hs _ _

theorem RosterOK_run {s s1 : Subber} (hs : RosterOK s.players) (ops : List Op)
    (h : run s ops = some s1) : RosterOK s1.players := by
  induction ops generalizing s with
  | nil =>
    simp only [run, Option.some.injEq] at h
    rw [← h]
    exact hs
  | cons op rest ih =>
    simp only [run] at h
    split at h
    · cases h
    · rename_i s2 h2
      exact ih (RosterOK_step hs op h2) h

/-- Every state reached from `NewSubber` has a roster keyed by its players' names. -/
theorem RosterOK_reachable {players : List Player} {ops : List Op} {s : Subber}
    (h : run (NewSubber players) ops = some s) : RosterOK s.players :=
  RosterOK_run (RosterOK_NewSubber players) ops h

/-! ## The two loops over the roster -/

theorem RosterOK_not_mem_pre {pre rest : List (String × Player)} {k : String} {v : Player}
    (h : RosterOK (pre ++ (k, v) :: rest)) : ∀ kv ∈ pre, kv.1 ≠ k := by
  intro kv hkv e
  have hnd := h.1
  rw [List.map_append, List.map_cons, List.nodup_append] at hnd
  exact hnd.2.2 (List.mem_map_of_mem Prod.fst hkv) (by simp [e])

theorem RosterOK_replace {pre rest : List (String × Player)} {k : String} {v q : Player}
    (h : RosterOK (pre ++ (k, v) :: rest)) (hq : q.Name = k) :
    RosterOK (pre ++ (k, q) :: rest) := by
  refine ⟨?_, ?_⟩
  · have hnd := h.1
    simpa using hnd
  · intro kv hkv
    rw [List.mem_append, List.mem_cons] at hkv
    rcases hkv with hkv | hkv | hkv
    · exact h.2 kv (by simp [hkv])
    · rw [hkv]
      exact hq
    · exact h.2 kv (by simp [hkv])

theorem resetLoop_eq (l pre : List (String × Player)) (s : Subber)
    (hs : s.players = pre ++ l) (hok : RosterOK (pre ++ l)) :
    resetLoop l s =
      { s with players := pre ++ l.map (fun kv => (kv.1, resetPlayer kv.2)) } := by
  induction l generalizing pre s with
  | nil =>
    simp only [resetLoop, List.map_nil, List.append_nil]
    rw [List.append_nil] at hs
    rw [← hs]
  | cons kv rest ih =>
    obtain ⟨k, v⟩ := kv
    have hname : v.Name = k := hok.2 (k, v) (by simp)
    have hpre := RosterOK_not_mem_pre hok
    have hget : mapGet s.players k = some v := by
      rw [hs, mapGet_append_of_not_mem pre _ k hpre]
      simp [mapGet]
    have hset : mapSet s.players k (resetPlayer v) =
        (pre ++ [(k, resetPlayer v)]) ++ rest := by
      rw [hs, mapSet_append_of_not_mem pre _ k _ hpre]
      simp [mapSet]
    simp only [resetLoop, hname]
    rw [PlayerReset_of_get hget, hset]
    rw [ih (pre ++ [(k, resetPlayer v)]) _ rfl
      (by simpa using RosterOK_replace hok (resetPlayer_Name v ▸ hname))]
    simp

theorem subOffLoop_eq (clk : Nat → Time) (l pre : List (String × Player)) (i : Nat)
    (s : Subber) (hs : s.players = pre ++ l) (hok : RosterOK (pre ++ l)) :
    subOffLoop clk l i s = { s with players := pre ++ subOffAll clk l i } := by
  induction l generalizing pre s i with
  | nil =>
    simp only [subOffLoop, subOffAll, List.append_nil]
    rw [List.append_nil] at hs
    rw [← hs]
  | cons kv rest ih =>
    obtain ⟨k, v⟩ := kv
    have hname : v.Name = k := hok.2 (k, v) (by simp)
    have hpre := RosterOK_not_mem_pre hok
    have hget : mapGet s.players k = some v := by
      rw [hs, mapGet_append_of_not_mem pre _ k hpre]
      simp [mapGet]
    have hset : mapSet s.players k (subOffPlayer v (clk i)) =
        (pre ++ [(k, subOffPlayer v (clk i))]) ++ rest := by
      rw [hs, mapSet_append_of_not_mem pre _ k _ hpre]
      simp [mapSet]
    simp only [subOffLoop, hname]
    rw [PlayerSubOff_of_get (clk i) hget, hset]
    rw [ih (pre ++ [(k, subOffPlayer v (clk i))]) (i + 1) _ rfl
      (by simpa using RosterOK_replace hok ((subOffPlayer_Name v (clk i)).trans hname))]
    simp [subOffAll]

/-- The reset loop over the whole roster resets every entry in place. -/
theorem resetLoop_players {s : Subber} (hok : RosterOK s.players) :
    resetLoop s.players s =
      { s with players := s.players.map (fun kv => (kv.1, resetPlayer kv.2)) } := by
  have h := resetLoop_eq s.players [] s rfl hok
  simpa using h

/-- The sub-off loop over the whole roster subs off every entry in place, the
entry at position `j` with the reading `clk (i + j)`. -/
theorem subOffLoop_players (clk : Nat → Time) (i : Nat) {s : Subber}
    (hok : RosterOK s.players) :
    subOffLoop clk s.players i s = { s with players := subOffAll clk s.players i } := by
  have h := subOffLoop_eq clk s.players [] i s rfl hok
  simpa using h

theorem subOffAll_length (clk : Nat → Time) (l : List (String × Player)) (i : Nat) :
    (subOffAll clk l i).length = l.length := by
  induction l generalizing i with
  | nil => rfl
  | cons kv rest ih => simp [subOffAll, ih]

theorem subOffAll_getElem? (clk : Nat → Time) (l : List (String × Player)) (i j : Nat) :
    (subOffAll clk l i)[j]? =
      (l[j]?).map (fun kv => (kv.1, subOffPlayer kv.2 (clk (i + j)))) := by
  induction l generalizing i j with
  | nil => simp [subOffAll]
  | cons kv rest ih =>
    cases j with
    | zero => simp [subOffAll]
    | succ j =>
      simp only [subOffAll, List.getElem?_cons_succ, ih]
      have e : i + 1 + j = i + (j + 1) := by omega
      rw [e]

/-! ## StartGame and ResetGame -/

theorem StartGame_eq {s : Subber} (hok : RosterOK s.players) (clk : Nat → Time) :
    StartGame s clk =
      { Game := { StartTime := clk 1, EndTime := 0,
                  periods := s.Game.periods ++ [{ StartTime := clk 0, EndTime := 0 }] },
        players := s.players.map (fun kv => (kv.1, resetPlayer kv.2)) } := by
  unfold StartGame
  simp only
  refine (resetLoop_eq s.players [] _ (by simp) (by simpa using hok)).trans ?_
  simp

theorem ResetGame_eq {s : Subber} (hok : RosterOK s.players) :
    ResetGame s =
      { Game := { StartTime := 0, EndTime := 0, periods := [] },
        players := s.players.map (fun kv => (kv.1, resetPlayer kv.2)) } := by
  unfold ResetGame
  simp only
  refine (resetLoop_eq s.players [] _ (by simp) (by simpa using hok)).trans ?_
  simp

theorem kunioPlaying_reachable :
    run (NewSubber [kunio, bob])
      [Op.StartGame (tickClock 1000), Op.PlayerSubOn "kunio" 2000] = some kunioPlaying := by
  decide

/-- C2: in every state reached from `NewSubber` (any roster, any sequence of
operations), `StartGame` leaves the Game InProgress, keeps the roster's names,
and leaves every player with PlayCount 0, PlayDuration 0, Playing false and
PlayStarted unset. -/
theorem StartGame_InProgress_all_reset (players : List Player) (ops : List Op)
    (s : Subber) (clk : Nat → Time) (h : run (NewSubber players) ops = some s) :
    (StartGame s clk).Game.State = GameStateInProgress ∧
    (StartGame s clk).players.map Prod.fst = s.players.map Prod.fst ∧
    ∀ kv ∈ (StartGame s clk).players,
      kv.2.PlayCount = 0 ∧ kv.2.PlayDuration = 0 ∧ kv.2.Playing = false ∧
        kv.2.PlayStarted = 0 := by
  have hok := RosterOK_reachable h
  rw [StartGame_eq hok]
  refine ⟨?_, ?_, ?_⟩
  · have hl : (s.Game.periods ++ [({ StartTime := clk 0, EndTime := 0 } : Period)]).getLast? =
        some { StartTime := clk 0, EndTime := 0 } := by simp
    rw [Game_State_last hl]
    simp
  · simp [List.map_map, Function.comp_def]
  · intro kv hkv
    simp only [List.mem_map] at hkv
    obtain ⟨e, _, he⟩ := hkv
    rw [← he]
    simp [resetPlayer]

theorem StartGame_InProgress_all_reset_witness :
    (StartGame kunioPlaying (tickClock 3000)).Game.State = GameStateInProgress ∧
    (StartGame kunioPlaying (tickClock 3000)).players.map Prod.fst =
      kunioPlaying.players.map Prod.fst ∧
    ∀ kv ∈ (StartGame kunioPlaying (tickClock 3000)).players,
      kv.2.PlayCount = 0 ∧ kv.2.PlayDuration = 0 ∧ kv.2.Playing = false ∧
        kv.2.PlayStarted = 0 :=
  StartGame_InProgress_all_reset [kunio, bob]
    [Op.StartGame (tickClock 1000), Op.PlayerSubOn "kunio" 2000] kunioPlaying
    (tickClock 3000) (by decide)

/-- C3: in every state reached from `NewSubber` by any sequence of operations,
`ResetGame` leaves the Game NotStarted (StartTime and EndTime unset, no
period) and every player zeroed (PlayCount 0, PlayDuration 0, Playing false,
PlayStarted unset), while the roster keeps its names and every player keeps
Name and Number. -/
theorem ResetGame_NotStarted_all_reset (players : List Player) (ops : List Op)
    (s : Subber) (h : run (NewSubber players) ops = some s) :
    (ResetGame s).Game.State = GameStateNotStarted ∧
    (ResetGame s).Game.StartTime = 0 ∧ (ResetGame s).Game.EndTime = 0 ∧
    (ResetGame s).Game.periods = [] ∧
    (∀ kv ∈ (ResetGame s).players,
      kv.2.PlayCount = 0 ∧ kv.2.PlayDuration = 0 ∧ kv.2.Playing = false ∧
        kv.2.PlayStarted = 0) ∧
    (ResetGame s).players.map (fun kv => (kv.1, kv.2.Name, kv.2.Number)) =
      s.players.map (fun kv => (kv.1, kv.2.Name, kv.2.Number)) := by
  have hok := RosterOK_reachable h
  rw [ResetGame_eq hok]
  refine ⟨Game_State_nil rfl, rfl, rfl, rfl, ?_, ?_⟩
  · intro kv hkv
    simp only [List.mem_map] at hkv
    obtain ⟨e, _, he⟩ := hkv
    rw [← he]
    simp [resetPlayer]
  · simp [List.map_map, Function.comp_def, resetPlayer]

theorem ResetGame_NotStarted_all_reset_witness :
    (ResetGame kunioPlaying).Game.State = GameStateNotStarted ∧
    (ResetGame kunioPlaying).Game.StartTime = 0 ∧ (ResetGame kunioPlaying).Game.EndTime = 0 ∧
    (ResetGame kunioPlaying).Game.periods = [] ∧
    (∀ kv ∈ (ResetGame kunioPlaying).players,
      kv.2.PlayCount = 0 ∧ kv.2.PlayDuration = 0 ∧ kv.2.Playing = false ∧
        kv.2.PlayStarted = 0) ∧
    (ResetGame kunioPlaying).players.map (fun kv => (kv.1, kv.2.Name, kv.2.Number)) =
      kunioPlaying.players.map (fun kv => (kv.1, kv.2.Name, kv.2.Number)) :=
  ResetGame_NotStarted_all_reset [kunio, bob]
    [Op.StartGame (tickClock 1000), Op.PlayerSubOn "kunio" 2000] kunioPlaying (by decide)

/-! ## PlayerSubOn followed by PlayerSubOff -/

/-- C4, as stated, fails once the sum leaves the int64 range: with the stored
PlayDuration at the largest Duration, a sub-on followed 100ms later by a
sub-off stores a negative PlayDuration, not the previous value plus 100ms. -/
theorem PlayerSubOn_then_SubOff_overflow :
    mapGet longPlayed.players "kunio" =
      some { kunio with PlayDuration := 9223372036854775807 } ∧
    (63871000000000000000 : Time) ≤ 63871000000100000000 ∧
    mapGet (PlayerSubOff (PlayerSubOn longPlayed "kunio" 63871000000000000000)
        "kunio" 63871000000100000000).players "kunio" =
      some { kunio with PlayCount := 1, PlayDuration := -9223372036754775809 } ∧
    ¬ ((-9223372036754775809 : Int) =
        9223372036854775807 + (63871000000100000000 - 63871000000000000000)) ∧
    ¬ ((9223372036854775807 : Int) ≤ -9223372036754775809) := by
  decide

/-- C4 (amended): for a known player with stored record `p` and clock readings
`t1 ≤ t2`, `t1` a set timestamp, such that `PlayCount + 1` and
`PlayDuration + (t2 - t1)` stay in the int64 range, `PlayerSubOn` at `t1`
followed by `PlayerSubOff` at `t2` stores PlayCount + 1, Playing false,
PlayStarted unset and PlayDuration + (t2 - t1), whatever `Playing` and
`PlayStarted` were before (time since an earlier sub-on is not added); the
increase `t2 - t1` is non-negative. -/
theorem PlayerSubOn_then_SubOff (s : Subber) (name : String) (p : Player) (t1 t2 : Time)
    (hget : mapGet s.players name = some p) (ht1 : t1 ≠ 0) (ht : t1 ≤ t2)
    (hc0 : minInt64 ≤ p.PlayCount) (hc : p.PlayCount < maxInt64)
    (hd0 : minInt64 ≤ p.PlayDuration) (hd : p.PlayDuration + (t2 - t1) ≤ maxInt64)
    (hel : t2 - t1 ≤ maxInt64) :
    mapGet (PlayerSubOff (PlayerSubOn s name t1) name t2).players name =
      some { p with PlayCount := p.PlayCount + 1,
                    PlayDuration := p.PlayDuration + (t2 - t1),
                    Playing := false, PlayStarted := 0 } ∧
    0 ≤ t2 - t1 := by
  have ht' : @LE.le Int _ t1 t2 := ht
  have hel0 : minInt64 ≤ t2 - t1 := by
    have hmin : minInt64 ≤ 0 := by decide
    omega
  refine ⟨?_, sub_nonneg.mpr ht⟩
  have hon : mapGet (PlayerSubOn s name t1).players name =
      some { p with Playing := true, PlayCount := wrapInt64 (p.PlayCount + 1),
                    PlayStarted := t1 } := by
    simp only [PlayerSubOn, hget]
    exact mapGet_mapSet_self _ _ _
  rw [PlayerSubOff_of_get t2 hon]
  simp only
  rw [mapGet_mapSet_self]
  have hz : Time.IsZero t1 = false := by
    simp [Time.IsZero, ht1]
  have hsub : Since t2 t1 = t2 - t1 := Time_Sub_eq_sub hel0 hel
  have hw1 : wrapInt64 (p.PlayCount + 1) = p.PlayCount + 1 :=
    wrapInt64_eq_self (by omega) (by omega)
  have hw2 : wrapInt64 (p.PlayDuration + (t2 - t1)) = p.PlayDuration + (t2 - t1) :=
    wrapInt64_eq_self (by omega) hd
  simp [subOffPlayer, hz, hsub, hw1, hw2]

/-- The scenario of the spec: roster of `kunio` (number 86), `StartGame`,
`PlayerSubOn`, and `PlayerSubOff` 100ms later give playCount 1, playDuration
100ms, playing false. -/
theorem PlayerSubOn_then_SubOff_witness :
    mapGet (PlayerSubOff (PlayerSubOn (StartGame (NewSubber [kunio])
        (tickClock 63871000000000000000)) "kunio" 63871000000000000500)
        "kunio" 63871000000100000500).players "kunio" =
      some { kunio with PlayCount := 0 + 1,
                        PlayDuration := 0 + (63871000000100000500 - 63871000000000000500),
                        Playing := false, PlayStarted := 0 } ∧
    (0 : Int) ≤ 63871000000100000500 - 63871000000000000500 :=
  PlayerSubOn_then_SubOff (StartGame (NewSubber [kunio]) (tickClock 63871000000000000000))
    "kunio" kunio 63871000000000000500 63871000000100000500
    (by decide) (by decide) (by decide) (by decide) (by decide) (by decide) (by decide)
    (by decide)

/-! ## ListPlayers -/

theorem livePlayer_storedView (p : Player) (now : Time) :
    storedView (livePlayer p now) = storedView p := by
  unfold livePlayer
  split <;> rfl

theorem livePlayer_Name (p : Player) (now : Time) : (livePlayer p now).Name = p.Name := by
  unfold livePlayer
  split <;> rfl

theorem liveLoop_length (clk : Nat → Time) (l : List (String × Player)) (i : Nat) :
    (liveLoop clk l i).length = l.length := by
  induction l generalizing i with
  | nil => rfl
  | cons kv rest ih => simp [liveLoop, ih]

theorem liveLoop_storedView (clk : Nat → Time) (l : List (String × Player)) (i : Nat) :
    (liveLoop clk l i).map storedView = l.map (fun kv => storedView kv.2) := by
  induction l generalizing i with
  | nil => rfl
  | cons kv rest ih => simp [liveLoop, ih, livePlayer_storedView]

theorem liveLoop_names (clk : Nat → Time) (l : List (String × Player)) (i : Nat) :
    (liveLoop clk l i).map (fun p => p.Name) = l.map (fun kv => kv.2.Name) := by
  induction l generalizing i with
  | nil => rfl
  | cons kv rest ih => simp [liveLoop, ih, livePlayer_Name]

theorem liveLoop_getElem? (clk : Nat → Time) (l : List (String × Player)) (i j : Nat) :
    (liveLoop clk l i)[j]? = (l[j]?).map (fun kv => livePlayer kv.2 (clk (i + j))) := by
  induction l generalizing i j with
  | nil => simp [liveLoop]
  | cons kv rest ih =>
    cases j with
    | zero => simp [liveLoop]
    | succ j =>
      simp only [liveLoop, List.getElem?_cons_succ, ih]
      have e : i + 1 + j = i + (j + 1) := by omega
      rw [e]

theorem insertByName_perm (p : Player) (l : List Player) :
    (insertByName p l).Perm (p :: l) := by
  induction l with
  | nil => exact List.Perm.refl _
  | cons q rest ih =>
    unfold insertByName
    split
    · exact List.Perm.refl _
    · exact ((List.Perm.cons q ih).trans (List.Perm.swap p q rest))

theorem sortByName_perm (l : List Player) : (sortByName l).Perm l := by
  induction l with
  | nil => exact List.Perm.refl _
  | cons p rest ih =>
    exact (insertByName_perm p (sortByName rest)).trans (List.Perm.cons p ih)

theorem insertByName_sorted (p : Player) (l : List Player)
    (h : l.Pairwise (fun a b => a.Name ≤ b.Name)) :
    (insertByName p l).Pairwise (fun a b => a.Name ≤ b.Name) := by
  induction l with
  | nil => simp [insertByName]
  | cons q rest ih =>
    rw [List.pairwise_cons] at h
    unfold insertByName
    split
    · rename_i hlt
      have hpq : p.Name < q.Name := (stringLess_iff _ _).mp hlt
      rw [List.pairwise_cons]
      refine ⟨?_, List.pairwise_cons.mpr h⟩
      intro b hb
      rw [List.mem_cons] at hb
      rcases hb with hb | hb
      · rw [hb]
        exact le_of_lt hpq
      · exact le_trans (le_of_lt hpq) (h.1 b hb)
    · rename_i hlt
      have hqp : q.Name ≤ p.Name := by
        apply not_lt.mp
        intro hc
        exact hlt ((stringLess_iff _ _).mpr hc)
      rw [List.pairwise_cons]
      refine ⟨?_, ih h.2⟩
      intro b hb
      have hb2 := (insertByName_perm p rest).mem_iff.mp hb
      rw [List.mem_cons] at hb2
      rcases hb2 with hb2 | hb2
      · rw [hb2]
        exact hqp
      · exact h.1 b hb2

theorem sortByName_sorted (l : List Player) :
    (sortByName l).Pairwise (fun a b => a.Name ≤ b.Name) := by
  induction l with
  | nil => simp [sortByName]
  | cons p rest ih => exact insertByName_sorted p _ ih

theorem sortByName_strict (l : List Player) (hnd : (l.map (fun p => p.Name)).Nodup) :
    (sortByName l).Pairwise (fun a b => a.Name < b.Name) := by
  have hs := sortByName_sorted l
  have hnd2 : ((sortByName l).map (fun p => p.Name)).Nodup :=
    ((sortByName_perm l).map _).nodup_iff.mpr hnd
  rw [List.Nodup, List.pairwise_map] at hnd2
  exact (hs.and hnd2).imp (fun h => lt_of_le_of_ne h.1 h.2)

theorem RosterOK_names {m : List (String × Player)} (hm : RosterOK m) :
    m.map (fun kv => kv.2.Name) = m.map Prod.fst := by
  apply List.map_congr_left
  intro kv hkv
  exact hm.2 kv hkv

theorem mapSet_of_not_mem (m : List (String × Player)) (name : String) (q : Player)
    (h : ∀ kv ∈ m, kv.1 ≠ name) : mapSet m name q = m ++ [(name, q)] := by
  have h2 := mapSet_append_of_not_mem m [] name q h
  simpa [mapSet] using h2

theorem NewSubber_players_of_nodup (players : List Player)
    (hnd : (players.map (fun p => p.Name)).Nodup) :
    (NewSubber players).players = players.map (fun p => (p.Name, p)) := by
  have key : ∀ (l : List Player) (m : List (String × Player)),
      (m.map Prod.fst ++ l.map (fun p => p.Name)).Nodup →
      l.foldl (fun ps player => mapSet ps player.Name player) m =
        m ++ l.map (fun p => (p.Name, p)) := by
    intro l
    induction l with
    | nil => intro m _; simp
    | cons p rest ih =>
      intro m hm
      have hp : ∀ kv ∈ m, kv.1 ≠ p.Name := by
        intro kv hkv e
        rw [List.nodup_append] at hm
        exact hm.2.2 (List.mem_map_of_mem Prod.fst hkv) (by simp [e])
      simp only [List.foldl_cons]
      rw [mapSet_of_not_mem m p.Name p hp, ih]
      · simp
      · simpa using hm
  have h := key players [] (by simpa using hnd)
  simpa [NewSubber] using h

/-- C5: in every state reached from `NewSubber`, `ListPlayers` returns as many
players as the roster holds, each with Name, Number, PlayCount, Playing and
PlayStarted as stored (the returned list is a rearrangement of the roster),
sorted by Name in strictly ascending order; and for a roster built from
players with distinct names, in whatever order they are given, the returned
list has one entry for each of them. -/
theorem ListPlayers_sorted_by_name (players : List Player) (ops : List Op) (s : Subber)
    (clk : Nat → Time) (h : run (NewSubber players) ops = some s) :
    (ListPlayers s clk).length = s.players.length ∧
    ((ListPlayers s clk).map storedView).Perm (s.players.map (fun kv => storedView kv.2)) ∧
    (ListPlayers s clk).Pairwise (fun a b => a.Name < b.Name) ∧
    ((players.map (fun p => p.Name)).Nodup →
      (ListPlayers (NewSubber players) clk).length = players.length ∧
      ((ListPlayers (NewSubber players) clk).map storedView).Perm (players.map storedView) ∧
      (ListPlayers (NewSubber players) clk).Pairwise (fun a b => a.Name < b.Name)) := by
  have general : ∀ t : Subber, RosterOK t.players →
      (ListPlayers t clk).length = t.players.length ∧
      ((ListPlayers t clk).map storedView).Perm (t.players.map (fun kv => storedView kv.2)) ∧
      (ListPlayers t clk).Pairwise (fun a b => a.Name < b.Name) := by
    intro t ht
    have hperm := sortByName_perm (liveLoop clk t.players 0)
    refine ⟨?_, ?_, ?_⟩
    · unfold ListPlayers
      rw [hperm.length_eq, liveLoop_length]
    · unfold ListPlayers
      have h2 := hperm.map storedView
      rw [liveLoop_storedView] at h2
      exact h2
    · unfold ListPlayers
      apply sortByName_strict
      rw [liveLoop_names, RosterOK_names ht]
      exact ht.1
  obtain ⟨g1, g2, g3⟩ := general s (RosterOK_reachable h)
  refine ⟨g1, g2, g3, ?_⟩
  intro hnd
  obtain ⟨n1, n2, n3⟩ := general (NewSubber players) (RosterOK_NewSubber players)
  rw [NewSubber_players_of_nodup players hnd] at n1 n2
  refine ⟨by simpa using n1, ?_, n3⟩
  simpa [List.map_map, Function.comp_def] using n2

theorem ListPlayers_sorted_by_name_witness :
    ([kunio, bob].map (fun p => p.Name)).Nodup ∧
    (ListPlayers kunioPlaying (tickClock 5000)).length = kunioPlaying.players.length ∧
    ((ListPlayers kunioPlaying (tickClock 5000)).map storedView).Perm
      (kunioPlaying.players.map (fun kv => storedView kv.2)) ∧
    (ListPlayers kunioPlaying (tickClock 5000)).Pairwise (fun a b => a.Name < b.Name) ∧
    (([kunio, bob].map (fun p => p.Name)).Nodup →
      (ListPlayers (NewSubber [kunio, bob]) (tickClock 5000)).length = [kunio, bob].length ∧
      ((ListPlayers (NewSubber [kunio, bob]) (tickClock 5000)).map storedView).Perm
        ([kunio, bob].map storedView) ∧
      (ListPlayers (NewSubber [kunio, bob]) (tickClock 5000)).Pairwise
        (fun a b => a.Name < b.Name)) :=
  ⟨by decide, ListPlayers_sorted_by_name [kunio, bob]
    [Op.StartGame (tickClock 1000), Op.PlayerSubOn "kunio" 2000] kunioPlaying
    (tickClock 5000) (by decide)⟩

/-! ## The live projection of ListPlayers -/

theorem elapsed_sum_eq {p : Player} {t x : Time} (hr : InRangeUntil p t)
    (h1 : p.PlayStarted ≤ x) (h2 : x ≤ t) :
    wrapInt64 (p.PlayDuration + Since x p.PlayStarted) =
      p.PlayDuration + (x - p.PlayStarted) := by
  obtain ⟨r1, r2, r3⟩ := hr
  have hmin : minInt64 ≤ 0 := by decide
  have e1 : minInt64 ≤ x - p.PlayStarted := by
    delta Time Duration at *
    omega
  have e2 : x - p.PlayStarted ≤ maxInt64 := by
    delta Time Duration at *
    omega
  have hsub : Since x p.PlayStarted = x - p.PlayStarted := Time_Sub_eq_sub e1 e2
  rw [hsub]
  apply wrapInt64_eq_self
  · delta Time Duration at *
    omega
  · delta Time Duration at *
    omega

theorem livePlayer_not_playing {p : Player} (now : Time) (h : p.Playing = false) :
    livePlayer p now = p := by
  simp [livePlayer, h]

theorem livePlayer_playing {p : Player} {now : Time} (h : p.Playing = true)
    (hr : InRangeUntil p now) (hs : p.PlayStarted ≤ now) :
    livePlayer p now =
      { p with PlayDuration := p.PlayDuration + (now - p.PlayStarted) } := by
  simp [livePlayer, h, elapsed_sum_eq hr hs (le_refl _)]

/-- For a player that satisfies the invariant, the projections at `a ≤ b` and
the duration a sub-off at `t ≥ b` stores are in ascending order. -/
theorem live_le_live_le_subOff {p : Player} {a b t : Time} (hok : PlayerOK p)
    (hab : a ≤ b) (hbt : b ≤ t)
    (hr : p.Playing = true → p.PlayStarted ≤ a ∧ InRangeUntil p t) :
    (livePlayer p a).PlayDuration ≤ (livePlayer p b).PlayDuration ∧
    (livePlayer p b).PlayDuration ≤ (subOffPlayer p t).PlayDuration := by
  by_cases hp : p.Playing = true
  · obtain ⟨hs, hrng⟩ := hr hp
    have hset : p.PlayStarted ≠ 0 := hok.mp hp
    have hz : Time.IsZero p.PlayStarted = false := by simp [Time.IsZero, hset]
    have ea := elapsed_sum_eq hrng hs (le_trans hab hbt)
    have eb := elapsed_sum_eq hrng (le_trans hs hab) hbt
    have et := elapsed_sum_eq hrng (le_trans hs (le_trans hab hbt)) (le_refl t)
    simp only [livePlayer, hp, if_true, subOffPlayer, hz, Bool.not_false, ea, eb, et]
    delta Time Duration at *
    constructor <;> omega
  · have hp2 : p.Playing = false := by simpa using hp
    have hunset : p.PlayStarted = 0 := by
      by_contra hc
      exact hp (hok.mpr hc)
    simp [livePlayer, hp2, subOffPlayer, hunset, Time.IsZero]

theorem RosterOK_mem_get {m : List (String × Player)} (hm : RosterOK m)
    {kv : String × Player} (hkv : kv ∈ m) : mapGet m kv.1 = some kv.2 := by
  obtain ⟨pre, rest, e⟩ := List.append_of_mem hkv
  obtain ⟨k, v⟩ := kv
  rw [e] at hm
  rw [e, mapGet_append_of_not_mem pre _ k (RosterOK_not_mem_pre hm)]
  simp [mapGet]

theorem mem_ListPlayers_iff (s : Subber) (clk : Nat → Time) (q : Player) :
    q ∈ ListPlayers s clk ↔
      ∃ j kv, s.players[j]? = some kv ∧ q = livePlayer kv.2 (clk j) := by
  unfold ListPlayers
  rw [(sortByName_perm _).mem_iff, List.mem_iff_getElem?]
  constructor
  · rintro ⟨j, hj⟩
    rw [liveLoop_getElem?] at hj
    rcases hkv : s.players[j]? with _ | kv
    · simp [hkv] at hj
    · refine ⟨j, kv, hkv, ?_⟩
      simp [hkv] at hj
      exact hj.symm
  · rintro ⟨j, kv, hkv, hq⟩
    refine ⟨j, ?_⟩
    rw [liveLoop_getElem?, hkv, hq]
    simp

/-- C6, as stated, fails in two ways. Once the projected sum leaves the int64
range, a later `ListPlayers` reports a smaller duration than an earlier one
(first three parts); and for a stored player marked as playing whose
PlayStarted is unset, `PlayerSubOff` stores less than `ListPlayers` had
projected (last three parts). -/
theorem ListPlayers_projection_not_monotone :
    (ListPlayers nearOverflow (constClock 63871000000000000003)).map
        (fun p => p.PlayDuration) = [9223372036854775803] ∧
    (ListPlayers nearOverflow (constClock 63871000000000000020)).map
        (fun p => p.PlayDuration) = [-9223372036854775796] ∧
    ¬ ((9223372036854775803 : Int) ≤ -9223372036854775796) ∧
    (ListPlayers seededPlaying (constClock 63871000000000000000)).map
        (fun p => p.PlayDuration) = [9223372036854775807] ∧
    (mapGet (PlayerSubOff seededPlaying "kunio" 63871000000000000001).players "kunio").map
        (fun p => p.PlayDuration) = some 0 ∧
    ¬ ((9223372036854775807 : Int) ≤ 0) := by
  decide

/-- C6 (amended): `ListPlayers` only reads the Subber it is given. Its result
holds, for every roster entry, the copy `livePlayer` of that entry; the copy of
a player that is not playing is the stored record, and the copy of a playing
player whose play fits the int64 range has PlayDuration equal to the stored
PlayDuration + (now - PlayStarted). For a stored player that satisfies the
invariant (playing iff PlayStarted is set) and, when playing, was started no
later than the first call's readings and fits the int64 range up to `t3`:
with every reading of the first call at most every reading of the second, and
these at most `t3`, the duration the first call reports is at most the one the
second reports, which is at most the PlayDuration `PlayerSubOff` stores at `t3`. -/
theorem ListPlayers_live_projection (players : List Player) (ops : List Op) (s : Subber)
    (clk1 clk2 : Nat → Time) (t3 : Time)
    (h : run (NewSubber players) ops = some s)
    (h12 : ∀ i j, clk1 i ≤ clk2 j) (h23 : ∀ j, clk2 j ≤ t3) :
    (∀ q, q ∈ ListPlayers s clk1 ↔
      ∃ j kv, s.players[j]? = some kv ∧ q = livePlayer kv.2 (clk1 j)) ∧
    (∀ (p : Player) (now : Time), p.Playing = false → livePlayer p now = p) ∧
    (∀ (p : Player) (now : Time), p.Playing = true → p.PlayStarted ≤ now →
      InRangeUntil p now →
      livePlayer p now =
        { p with PlayDuration := p.PlayDuration + (now - p.PlayStarted) }) ∧
    (∀ (name : String) (p : Player), mapGet s.players name = some p → PlayerOK p →
      (p.Playing = true → (∀ i, p.PlayStarted ≤ clk1 i) ∧ InRangeUntil p t3) →
      ∀ q1 ∈ ListPlayers s clk1, ∀ q2 ∈ ListPlayers s clk2,
        q1.Name = name → q2.Name = name →
        q1.PlayDuration ≤ q2.PlayDuration ∧
        ∃ p3, mapGet (PlayerSubOff s name t3).players name = some p3 ∧
          q2.PlayDuration ≤ p3.PlayDuration) := by
  have hok := RosterOK_reachable h
  refine ⟨mem_ListPlayers_iff s clk1, fun p now hp => livePlayer_not_playing now hp,
    fun p now hp hs hr => livePlayer_playing hp hr hs, ?_⟩
  intro name p hget hpok hrng q1 hq1 q2 hq2 hn1 hn2
  have entry : ∀ (clk : Nat → Time) (q : Player), q ∈ ListPlayers s clk → q.Name = name →
      ∃ j, q = livePlayer p (clk j) := by
    intro clk q hq hn
    obtain ⟨j, kv, hkv, hqe⟩ := (mem_ListPlayers_iff s clk q).mp hq
    have hmem : kv ∈ s.players := List.getElem?_mem hkv
    have hk : kv.1 = name := by
      rw [← hok.2 kv hmem, ← hn, hqe, livePlayer_Name]
    have hg := RosterOK_mem_get hok hmem
    rw [hk, hget] at hg
    refine ⟨j, ?_⟩
    rw [hqe, ← Option.some.inj hg]
  obtain ⟨j1, e1⟩ := entry clk1 q1 hq1 hn1
  obtain ⟨j2, e2⟩ := entry clk2 q2 hq2 hn2
  have key := live_le_live_le_subOff (p := p) (a := clk1 j1) (b := clk2 j2) (t := t3) hpok
    (h12 j1 j2) (h23 j2) (fun hp => ⟨(hrng hp).1 j1, (hrng hp).2⟩)
  rw [e1, e2]
  refine ⟨key.1, subOffPlayer p t3, ?_, key.2⟩
  rw [PlayerSubOff_of_get t3 hget]
  exact mapGet_mapSet_self _ _ _

theorem ListPlayers_live_projection_witness :
    run (NewSubber [kunio, bob])
      [Op.StartGame (tickClock 1000), Op.PlayerSubOn "kunio" 2000] = some kunioPlaying ∧
    (∀ q1 ∈ ListPlayers kunioPlaying (constClock 5000),
      ∀ q2 ∈ ListPlayers kunioPlaying (constClock 6000),
        q1.Name = "kunio" → q2.Name = "kunio" →
        q1.PlayDuration ≤ q2.PlayDuration ∧
        ∃ p3, mapGet (PlayerSubOff kunioPlaying "kunio" 7000).players "kunio" = some p3 ∧
          q2.PlayDuration ≤ p3.PlayDuration) :=
  ⟨by decide,
   (ListPlayers_live_projection [kunio, bob]
      [Op.StartGame (tickClock 1000), Op.PlayerSubOn "kunio" 2000] kunioPlaying
      (constClock 5000) (constClock 6000) 7000 (by decide)
      (fun _ _ => show (5000 : Int) ≤ 6000 by decide)
      (fun _ => show (6000 : Int) ≤ 7000 by decide)).2.2.2 "kunio"
      { kunio with PlayCount := 1, Playing := true, PlayStarted := 2000 }
      (by decide) (by decide)
      (fun _ => ⟨fun _ => show (2000 : Int) ≤ 5000 by decide, by decide⟩)⟩

/-! ## Unknown players -/

/-- C7: for a name that is not a key of the roster, `PlayerReset`,
`PlayerSet`, `PlayerSubOn` and `PlayerSubOff` return the Subber they were
given: the Game, every player record and the set of names are unchanged, and
no entry is created. -/
theorem unknown_player_is_noop (s : Subber) (name : String) (c : Int) (d : Duration)
    (now : Time) (h : ∀ kv ∈ s.players, kv.1 ≠ name) :
    PlayerReset s name = s ∧ PlayerSet s name c d = s ∧
    PlayerSubOn s name now = s ∧ PlayerSubOff s name now = s := by
  have hget : mapGet s.players name = none := (mapGet_eq_none_iff _ _).mpr h
  simp [PlayerReset, PlayerSet, PlayerSubOn, PlayerSubOff, hget]

theorem unknown_player_is_noop_witness :
    (∀ kv ∈ kunioPlaying.players, kv.1 ≠ "unknown-name") ∧
    PlayerReset kunioPlaying "unknown-name" = kunioPlaying ∧
    PlayerSet kunioPlaying "unknown-name" 3 5000 = kunioPlaying ∧
    PlayerSubOn kunioPlaying "unknown-name" 9000 = kunioPlaying ∧
    PlayerSubOff kunioPlaying "unknown-name" 9000 = kunioPlaying :=
  ⟨by decide, unknown_player_is_noop kunioPlaying "unknown-name" 3 5000 9000 (by decide)⟩

/-! ## PauseGame and EndGame -/

theorem modify_length_append (f : Period → Period) (init : List Period) (p : Period) :
    (init ++ [p]).modify f init.length = init ++ [f p] := by
  induction init with
  | nil => rfl
  | cons a rest ih =>
    simp only [List.cons_append, List.length_cons, List.modify_succ_cons, ih]

theorem setEndTime_last (init : List Period) (p : Period) (now : Time) :
    setEndTime (init ++ [p]) (((init ++ [p]).length : Int) - 1) now =
      some (init ++ [{ p with EndTime := now }]) := by
  have hlen : (((init ++ [p]).length : Int) - 1) = (init.length : Int) := by
    simp
  rw [hlen]
  unfold setEndTime
  have hcond : (0 : Int) ≤ (init.length : Int) ∧ (init.length : Int) < ((init ++ [p]).length : Int) := by
    constructor
    · exact Int.ofNat_nonneg _
    · simp
  rw [if_pos hcond, Int.toNat_ofNat, modify_length_append]

theorem setEndTime_nil (idx : Int) (now : Time) : setEndTime [] idx now = none := by
  unfold setEndTime
  rw [if_neg]
  simp only [List.length_nil, Int.ofNat_zero, not_and, not_lt]
  intro h
  exact h

theorem periods_eq_concat {periods : List Period} (hne : periods ≠ []) :
    ∃ init p, periods = init ++ [p] :=
  ⟨periods.dropLast, periods.getLast hne, (List.dropLast_append_getLast hne).symm⟩

theorem PauseGame_eq (s : Subber) (clk : Nat → Time) (init : List Period) (p : Period)
    (hp : s.Game.periods = init ++ [p]) :
    PauseGame s clk =
      some (subOffLoop clk s.players 1
        { s with Game := { s.Game with periods := init ++ [{ p with EndTime := clk 0 }] } }) := by
  unfold PauseGame
  simp only [hp, setEndTime_last]

theorem EndGame_eq (s : Subber) (clk : Nat → Time) (init : List Period) (p : Period)
    (hp : s.Game.periods = init ++ [p]) :
    EndGame s clk =
      some (subOffLoop clk s.players 2
        { s with Game := { StartTime := s.Game.StartTime, EndTime := clk 1,
                           periods := init ++ [{ p with EndTime := clk 0 }] } }) := by
  unfold EndGame
  simp only [hp, setEndTime_last]

/-- C8, as stated, fails on a finished game: `StartGame`, `EndGame`, then
`PauseGame` leaves the Game Finished, not Paused. -/
theorem PauseGame_after_EndGame_is_Finished :
    run (NewSubber [kunio])
      [Op.StartGame (tickClock 63871000000000001000), Op.EndGame (tickClock 63871000000000003000)] =
      some finishedGame ∧
    finishedGame.Game.periods.length = 1 ∧
    (PauseGame finishedGame (tickClock 63871000000000005000)).map (fun s => s.Game) =
      some { StartTime := 63871000000000001001, EndTime := 63871000000000003001,
             periods := [{ StartTime := 63871000000000001000, EndTime := 63871000000000005000 }] } ∧
    (PauseGame finishedGame (tickClock 63871000000000005000)).map (fun s => s.Game.State) =
      some GameStateFinished ∧
    GameStateFinished ≠ GameStatePaused := by
  decide

/-- C8 (amended): for every Subber with at least one period, `PauseGame` at a
set timestamp does not fault; it closes the last period at that reading and
leaves the Game's StartTime and EndTime as they were; the Game state is then
Paused, unless StartTime and EndTime are both set (the game had been ended),
in which case it is Finished. -/
theorem PauseGame_state (s : Subber) (clk : Nat → Time) (hp : s.Game.periods ≠ [])
    (hclk : clk 0 ≠ 0) :
    ∃ s1, PauseGame s clk = some s1 ∧
      (∃ p, s1.Game.periods.getLast? = some p ∧ p.EndTime = clk 0) ∧
      s1.Game.StartTime = s.Game.StartTime ∧ s1.Game.EndTime = s.Game.EndTime ∧
      (¬ (s.Game.StartTime ≠ 0 ∧ s.Game.EndTime ≠ 0) → s1.Game.State = GameStatePaused) ∧
      (s.Game.StartTime ≠ 0 ∧ s.Game.EndTime ≠ 0 → s1.Game.State = GameStateFinished) := by
  obtain ⟨init, p, hip⟩ := periods_eq_concat hp
  refine ⟨_, PauseGame_eq s clk init p hip, ?_⟩
  have hg := subOffLoop_Game clk s.players 1
    { s with Game := { s.Game with periods := init ++ [{ p with EndTime := clk 0 }] } }
  rw [hg]
  have hl : (init ++ [({ p with EndTime := clk 0 } : Period)]).getLast? =
      some { p with EndTime := clk 0 } := by simp
  refine ⟨⟨_, hl, rfl⟩, rfl, rfl, ?_, ?_⟩
  · intro hn
    rw [Game_State_last hl]
    simp only [hclk, if_false]
    rw [if_neg hn]
  · intro hf
    rw [Game_State_last hl]
    simp only [hclk, if_false]
    rw [if_pos hf]

theorem PauseGame_state_witness :
    kunioPlaying.Game.periods ≠ [] ∧ tickClock 3000 0 ≠ 0 ∧
    ∃ s1, PauseGame kunioPlaying (tickClock 3000) = some s1 ∧
      (∃ p, s1.Game.periods.getLast? = some p ∧ p.EndTime = tickClock 3000 0) ∧
      s1.Game.StartTime = kunioPlaying.Game.StartTime ∧
      s1.Game.EndTime = kunioPlaying.Game.EndTime ∧
      (¬ (kunioPlaying.Game.StartTime ≠ 0 ∧ kunioPlaying.Game.EndTime ≠ 0) →
        s1.Game.State = GameStatePaused) ∧
      (kunioPlaying.Game.StartTime ≠ 0 ∧ kunioPlaying.Game.EndTime ≠ 0 →
        s1.Game.State = GameStateFinished) :=
  ⟨by decide, by decide, PauseGame_state kunioPlaying (tickClock 3000) (by decide) (by decide)⟩

/-- C9, as stated, fails when the period was opened by `ResumeGame` on a game
that was never started: `EndGame` then closes the period and sets the Game's
EndTime, but the Game's StartTime is unset and the state is Paused, not Finished. -/
theorem EndGame_after_ResumeGame_is_Paused :
    run (NewSubber [kunio]) [Op.ResumeGame (tickClock 63871000000000001000)] = some resumedFresh ∧
    resumedFresh.Game.periods.length = 1 ∧
    (EndGame resumedFresh (tickClock 63871000000000003000)).map (fun s => s.Game) =
      some { StartTime := 0, EndTime := 63871000000000003001,
             periods := [{ StartTime := 63871000000000001000, EndTime := 63871000000000003000 }] } ∧
    (EndGame resumedFresh (tickClock 63871000000000003000)).map (fun s => s.Game.State) =
      some GameStatePaused ∧
    GameStatePaused ≠ GameStateFinished := by
  decide

/-- C9 (amended): for every Subber with at least one period, `EndGame` at set
timestamps does not fault; it closes the last period and sets the Game's
EndTime; the Game state is then Finished provided the Game's StartTime is set,
and Paused when it is unset. -/
theorem EndGame_state (s : Subber) (clk : Nat → Time) (hp : s.Game.periods ≠ [])
    (h0 : clk 0 ≠ 0) (h1 : clk 1 ≠ 0) :
    ∃ s1, EndGame s clk = some s1 ∧
      (∃ p, s1.Game.periods.getLast? = some p ∧ p.EndTime = clk 0 ∧ p.EndTime ≠ 0) ∧
      s1.Game.EndTime = clk 1 ∧ s1.Game.EndTime ≠ 0 ∧
      s1.Game.StartTime = s.Game.StartTime ∧
      (s.Game.StartTime ≠ 0 → s1.Game.State = GameStateFinished) ∧
      (s.Game.StartTime = 0 → s1.Game.State = GameStatePaused) := by
  obtain ⟨init, p, hip⟩ := periods_eq_concat hp
  refine ⟨_, EndGame_eq s clk init p hip, ?_⟩
  have hg := subOffLoop_Game clk s.players 2
    { s with Game := { StartTime := s.Game.StartTime, EndTime := clk 1,
                       periods := init ++ [{ p with EndTime := clk 0 }] } }
  rw [hg]
  have hl : (init ++ [({ p with EndTime := clk 0 } : Period)]).getLast? =
      some { p with EndTime := clk 0 } := by simp
  refine ⟨⟨_, hl, rfl, h0⟩, rfl, h1, rfl, ?_, ?_⟩
  · intro hs
    rw [Game_State_last hl]
    simp only [h0, if_false]
    rw [if_pos ⟨hs, h1⟩]
  · intro hs
    rw [Game_State_last hl]
    simp only [h0, if_false]
    rw [if_neg (fun hc => hc.1 hs)]

theorem EndGame_state_witness :
    kunioPlaying.Game.periods ≠ [] ∧ tickClock 3000 0 ≠ 0 ∧ tickClock 3000 1 ≠ 0 ∧
    ∃ s1, EndGame kunioPlaying (tickClock 3000) = some s1 ∧
      (∃ p, s1.Game.periods.getLast? = some p ∧ p.EndTime = tickClock 3000 0 ∧
        p.EndTime ≠ 0) ∧
      s1.Game.EndTime = tickClock 3000 1 ∧ s1.Game.EndTime ≠ 0 ∧
      s1.Game.StartTime = kunioPlaying.Game.StartTime ∧
      (kunioPlaying.Game.StartTime ≠ 0 → s1.Game.State = GameStateFinished) ∧
      (kunioPlaying.Game.StartTime = 0 → s1.Game.State = GameStatePaused) :=
  ⟨by decide, by decide, by decide,
   EndGame_state kunioPlaying (tickClock 3000) (by decide) (by decide) (by decide)⟩

/-! ## The sub-off loop of PauseGame, ResumeGame and EndGame -/

theorem PauseGame_players {s s1 : Subber} {clk : Nat → Time} (hok : RosterOK s.players)
    (h : PauseGame s clk = some s1) : s1.players = subOffAll clk s.players 1 := by
  unfold PauseGame at h
  simp only at h
  split at h
  · cases h
  · rename_i ps _
    rw [← Option.some.inj h]
    rw [subOffLoop_eq clk s.players [] 1 _ (by simp) (by simpa using hok)]
    simp

theorem ResumeGame_players {s : Subber} {clk : Nat → Time} (hok : RosterOK s.players) :
    (ResumeGame s clk).players = subOffAll clk s.players 1 := by
  unfold ResumeGame
  simp only
  rw [subOffLoop_eq clk s.players [] 1 _ (by simp) (by simpa using hok)]
  simp

theorem EndGame_players {s s1 : Subber} {clk : Nat → Time} (hok : RosterOK s.players)
    (h : EndGame s clk = some s1) : s1.players = subOffAll clk s.players 2 := by
  unfold EndGame at h
  simp only at h
  split at h
  · cases h
  · rename_i ps _
    rw [← Option.some.inj h]
    rw [subOffLoop_eq clk s.players [] 2 _ (by simp) (by simpa using hok)]
    simp

theorem subOffPlayer_facts (p : Player) (now : Time) :
    (subOffPlayer p now).Playing = false ∧ (subOffPlayer p now).PlayStarted = 0 ∧
    (subOffPlayer p now).PlayCount = p.PlayCount ∧ (subOffPlayer p now).Name = p.Name ∧
    (subOffPlayer p now).Number = p.Number ∧
    (p.PlayStarted = 0 → (subOffPlayer p now).PlayDuration = p.PlayDuration) ∧
    (p.PlayStarted ≠ 0 → (subOffPlayer p now).PlayDuration =
      wrapInt64 (p.PlayDuration + Since now p.PlayStarted)) := by
  by_cases hz : p.PlayStarted = 0
  · simp [subOffPlayer, Time.IsZero, hz]
  · simp [subOffPlayer, Time.IsZero, hz]

/-- C10, as stated, fails once the sum leaves the int64 range: `ResumeGame`
subs `kunio` off 101ns after the sub-on, and the PlayDuration it stores is
negative, not the previous value plus 101ns. -/
theorem ResumeGame_sub_off_overflow :
    mapGet nearOverflow.players "kunio" =
      some { kunio with PlayCount := 1, PlayDuration := 9223372036854775800,
                        Playing := true, PlayStarted := 63871000000000000000 } ∧
    tickClock 63871000000000000100 1 = 63871000000000000101 ∧
    mapGet (ResumeGame nearOverflow (tickClock 63871000000000000100)).players "kunio" =
      some { kunio with PlayCount := 1, PlayDuration := -9223372036854775715 } ∧
    ¬ ((-9223372036854775715 : Int) =
        9223372036854775800 + (63871000000000000101 - 63871000000000000000)) := by
  decide

/-- C10 (amended): in every state reached from `NewSubber`, `PauseGame`,
`ResumeGame` and `EndGame` (when they do not fault) keep the roster's entries
in place and sub each of them off with a reading of its own, `clk (base + j)`
for the entry at position `j`: afterwards Playing is false and PlayStarted is
unset, PlayCount, Name and Number are what they were, and PlayDuration is
unchanged if PlayStarted was unset and otherwise the int64 sum of the stored
value and the time since PlayStarted, which is the stored value plus
(now - PlayStarted) whenever that play fits the int64 range. -/
theorem game_ops_sub_off_every_player (players : List Player) (ops : List Op) (s : Subber)
    (clk : Nat → Time) (s1 : Subber) (base : Nat)
    (h : run (NewSubber players) ops = some s)
    (hop : (PauseGame s clk = some s1 ∧ base = 1) ∨ (ResumeGame s clk = s1 ∧ base = 1) ∨
      (EndGame s clk = some s1 ∧ base = 2)) :
    s1.players.length = s.players.length ∧
    ∀ (j : Nat) (kv : String × Player), s.players[j]? = some kv →
      ∃ q, s1.players[j]? = some (kv.1, q) ∧
        q.Playing = false ∧ q.PlayStarted = 0 ∧
        q.PlayCount = kv.2.PlayCount ∧ q.Name = kv.2.Name ∧ q.Number = kv.2.Number ∧
        (kv.2.PlayStarted = 0 → q.PlayDuration = kv.2.PlayDuration) ∧
        (kv.2.PlayStarted ≠ 0 → q.PlayDuration =
          wrapInt64 (kv.2.PlayDuration + Since (clk (base + j)) kv.2.PlayStarted)) ∧
        (kv.2.PlayStarted ≠ 0 → kv.2.PlayStarted ≤ clk (base + j) →
          InRangeUntil kv.2 (clk (base + j)) →
          q.PlayDuration = kv.2.PlayDuration + (clk (base + j) - kv.2.PlayStarted)) := by
  have hok := RosterOK_reachable h
  have hpl : s1.players = subOffAll clk s.players base := by
    rcases hop with ⟨hp, hb⟩ | ⟨hr, hb⟩ | ⟨he, hb⟩
    · rw [hb]
      exact PauseGame_players hok hp
    · rw [hb, ← hr]
      exact ResumeGame_players hok
    · rw [hb]
      exact EndGame_players hok he
  rw [hpl]
  refine ⟨subOffAll_length clk s.players base, ?_⟩
  intro j kv hkv
  refine ⟨subOffPlayer kv.2 (clk (base + j)), ?_, ?_⟩
  · rw [subOffAll_getElem?, hkv]
    rfl
  · obtain ⟨f1, f2, f3, f4, f5, f6, f7⟩ := subOffPlayer_facts kv.2 (clk (base + j))
    refine ⟨f1, f2, f3, f4, f5, f6, f7, ?_⟩
    intro hset hle hr
    rw [f7 hset]
    exact elapsed_sum_eq hr hle (le_refl _)

theorem game_ops_sub_off_every_player_witness :
    run (NewSubber [kunio, bob])
      [Op.StartGame (tickClock 1000), Op.PlayerSubOn "kunio" 2000] = some kunioPlaying ∧
    PauseGame kunioPlaying (tickClock 3000) = some kunioPaused ∧
    kunioPaused.players.length = kunioPlaying.players.length ∧
    ∀ (j : Nat) (kv : String × Player), kunioPlaying.players[j]? = some kv →
      ∃ q, kunioPaused.players[j]? = some (kv.1, q) ∧
        q.Playing = false ∧ q.PlayStarted = 0 ∧
        q.PlayCount = kv.2.PlayCount ∧ q.Name = kv.2.Name ∧ q.Number = kv.2.Number ∧
        (kv.2.PlayStarted = 0 → q.PlayDuration = kv.2.PlayDuration) ∧
        (kv.2.PlayStarted ≠ 0 → q.PlayDuration =
          wrapInt64 (kv.2.PlayDuration + Since (tickClock 3000 (1 + j)) kv.2.PlayStarted)) ∧
        (kv.2.PlayStarted ≠ 0 → kv.2.PlayStarted ≤ tickClock 3000 (1 + j) →
          InRangeUntil kv.2 (tickClock 3000 (1 + j)) →
          q.PlayDuration =
            kv.2.PlayDuration + (tickClock 3000 (1 + j) - kv.2.PlayStarted)) :=
  ⟨by decide, by decide,
   game_ops_sub_off_every_player [kunio, bob]
     [Op.StartGame (tickClock 1000), Op.PlayerSubOn "kunio" 2000] kunioPlaying
     (tickClock 3000) kunioPaused 1 (by decide) (Or.inl ⟨by decide, rfl⟩)⟩

/-! ## The player invariant -/

theorem PlayerOK_resetPlayer (p : Player) : PlayerOK (resetPlayer p) := by
  simp [PlayerOK, resetPlayer]

theorem PlayerOK_subOffPlayer (p : Player) (now : Time) : PlayerOK (subOffPlayer p now) := by
  have h := subOffPlayer_facts p now
  simp [PlayerOK, h.1, h.2.1]

theorem AllPlayersOK_set {s : Subber} {name : String} {q : Player} (hs : AllPlayersOK s)
    (hq : PlayerOK q) :
    AllPlayersOK { s with players := mapSet s.players name q } := by
  intro kv hkv
  rcases mem_mapSet hkv with h | h
  · exact hs kv h
  · rw [h]
    exact hq

theorem AllPlayersOK_PlayerReset {s : Subber} (hs : AllPlayersOK s) (name : String) :
    AllPlayersOK (PlayerReset s name) := by
  unfold PlayerReset
  split
  · exact hs
  · exact AllPlayersOK_set hs (PlayerOK_resetPlayer _)

theorem AllPlayersOK_PlayerSet {s : Subber} (hs : AllPlayersOK s) (name : String)
    (c : Int) (d : Duration) : AllPlayersOK (PlayerSet s name c d) := by
  unfold PlayerSet
  split
  · exact hs
  · rename_i p hp
    have hpok : PlayerOK p := hs (name, p) (mapGet_some_mem hp)
    exact AllPlayersOK_set hs hpok

theorem AllPlayersOK_PlayerSubOn {s : Subber} (hs : AllPlayersOK s) (name : String)
    {now : Time} (hnow : now ≠ 0) : AllPlayersOK (PlayerSubOn s name now) := by
  unfold PlayerSubOn
  split
  · exact hs
  · apply AllPlayersOK_set hs
    simp [PlayerOK, hnow]

theorem AllPlayersOK_PlayerSubOff {s : Subber} (hs : AllPlayersOK s) (name : String)
    (now : Time) : AllPlayersOK (PlayerSubOff s name now) := by
  unfold PlayerSubOff
  split
  · exact hs
  · exact AllPlayersOK_set hs (PlayerOK_subOffPlayer _ _)

theorem AllPlayersOK_resetLoop (l : List (String × Player)) {s : Subber}
    (hs : AllPlayersOK s) : AllPlayersOK (resetLoop l s) := by
  induction l generalizing s with
  | nil => exact hs
  | cons kv rest ih => exact ih (AllPlayersOK_PlayerReset hs _)

theorem AllPlayersOK_subOffLoop (clk : Nat → Time) (l : List (String × Player)) (i : Nat)
    {s : Subber} (hs : AllPlayersOK s) : AllPlayersOK (subOffLoop clk l i s) := by
  induction l generalizing s i with
  | nil => exact hs
  | cons kv rest ih => exact ih (i + 1) (AllPlayersOK_PlayerSubOff hs _ _)

theorem AllPlayersOK_NewSubber {players : List Player} (h : ∀ p ∈ players, PlayerOK p) :
    AllPlayersOK (NewSubber players) := by
  have key : ∀ (l : List Player) (m : List (String × Player)),
      (∀ p ∈ l, PlayerOK p) → (∀ kv ∈ m, PlayerOK kv.2) →
      ∀ kv ∈ l.foldl (fun ps player => mapSet ps player.Name player) m, PlayerOK kv.2 := by
    intro l
    induction l with
    | nil => intro m _ hm; exact hm
    | cons p rest ih =>
      intro m hl hm
      apply ih _ (fun q hq => hl q (List.mem_cons_of_mem _ hq))
      intro kv hkv
      rcases mem_mapSet hkv with h2 | h2
      · exact hm kv h2
      · rw [h2]
        exact hl p (List.mem_cons_self _ _)
  exact key players [] h (by simp)

theorem AllPlayersOK_step {s s1 : Subber} (hs : AllPlayersOK s) (op : Op)
    (hop : op.ClockSet) (h : step s op = some s1) : AllPlayersOK s1 := by
  cases op with
  | StartGame clk =>
    simp only [step, Option.some.injEq] at h
    rw [← h]
    exact AllPlayersOK_resetLoop _ hs
  | PauseGame clk =>
    simp only [step, PauseGame] at h
    split at h
    · cases h
    · simp only [Option.some.injEq] at h
      rw [← h]
      exact AllPlayersOK_subOffLoop _ _ _ hs
  | ResumeGame clk =>
    simp only [step, Option.some.injEq] at h
    rw [← h]
    exact AllPlayersOK_subOffLoop _ _ _ hs
  | EndGame clk =>
    simp only [step, EndGame] at h
    split at h
    · cases h
    · simp only [Option.some.injEq] at h
      rw [← h]
      exact AllPlayersOK_subOffLoop _ _ _ hs
  | ResetGame =>
    simp only [step, Option.some.injEq] at h
    rw [← h]
    exact AllPlayersOK_resetLoop _ hs
  | PlayerReset name =>
    simp only [step, Option.some.injEq] at h
    rw [← h]
    exact AllPlayersOK_PlayerReset hs _
  | PlayerSet name c d =>
    simp only [step, Option.some.injEq] at h
    rw [← h]
    exact AllPlayersOK_PlayerSet hs _ _ _
  | PlayerSubOn name now =>
    simp only [step, Option.some.injEq] at h
    rw [← h]
    exact AllPlayersOK_PlayerSubOn hs _ hop
  | PlayerSubOff name now =>
    simp only [step, Option.some.injEq] at h
    rw [← h]
    exact AllPlayersOK_PlayerSubOff hs _ _

theorem AllPlayersOK_run {s s1 : Subber} (hs : AllPlayersOK s) (ops : List Op)
    (hops : ∀ op ∈ ops, op.ClockSet) (h : run s ops = some s1) : AllPlayersOK s1 := by
  induction ops generalizing s with
  | nil =>
    simp only [run, Option.some.injEq] at h
    rw [← h]
    exact hs
  | cons op rest ih =>
    simp only [run] at h
    split at h
    · cases h
    · rename_i s2 h2
      exact ih (AllPlayersOK_step hs op (hops op (List.mem_cons_self _ _)) h2)
        (fun o ho => hops o (List.mem_cons_of_mem _ ho)) h

theorem mapSet_eq_map {m : List (String × Player)} (hnd : (m.map Prod.fst).Nodup)
    {name : String} {p : Player} (hget : mapGet m name = some p) (q : Player) :
    mapSet m name q = m.map (fun kv => if kv.1 = name then (kv.1, q) else kv) := by
  induction m with
  | nil => simp [mapGet] at hget
  | cons e rest ih =>
    obtain ⟨k, v⟩ := e
    rw [List.map_cons, List.nodup_cons] at hnd
    by_cases hk : k = name
    · have hrest : rest.map (fun kv => if kv.1 = name then (kv.1, q) else kv) = rest := by
        conv => rhs; rw [← List.map_id rest]
        apply List.map_congr_left
        intro kv hkv
        have hne : ¬ kv.1 = name := by
          intro e
          apply hnd.1
          have hmem : kv.1 ∈ rest.map Prod.fst := List.mem_map_of_mem Prod.fst hkv
          rw [hk, ← e]
          exact hmem
        simp [hne]
      simp [mapSet, hk, hrest]
    · have hget2 : mapGet rest name = some p := by
        simpa [mapGet, hk] using hget
      simp [mapSet, hk, ih hnd.2 hget2]

theorem PlayerSet_eq_map {s : Subber} (hok : RosterOK s.players) (name : String)
    (c : Int) (d : Duration) :
    PlayerSet s name c d =
      { s with players := s.players.map (fun kv =>
          if kv.1 = name then (kv.1, { kv.2 with PlayCount := c, PlayDuration := d })
          else kv) } := by
  unfold PlayerSet
  split
  · rename_i hnone
    have hne := (mapGet_eq_none_iff _ _).mp hnone
    have hid : s.players.map (fun kv =>
        if kv.1 = name then (kv.1, ({ kv.2 with PlayCount := c, PlayDuration := d } : Player))
        else kv) = s.players := by
      conv => rhs; rw [← List.map_id s.players]
      apply List.map_congr_left
      intro kv hkv
      simp [hne kv hkv]
    rw [hid]
  · rename_i p hp
    simp only
    rw [mapSet_eq_map hok.1 hp]
    congr 1
    apply List.map_congr_left
    intro kv hkv
    by_cases hk : kv.1 = name
    · have hg := RosterOK_mem_get hok hkv
      rw [hk, hp] at hg
      have hpe : p = kv.2 := Option.some.inj hg
      simp [hk, hpe]
    · simp [hk]

theorem tickClock_ne_zero {t : Time} (ht : 0 < t) (i : Nat) : tickClock t i ≠ 0 := by
  unfold tickClock
  delta Time at *
  omega

/-- C12: starting from players that satisfy the invariant (Playing iff
PlayStarted is set), as every player given by name and number alone does, every
player of every state reached by any sequence of operations whose clock
readings are set timestamps satisfies the invariant; and `PlayerSet` leaves the
Game alone and rewrites PlayCount and PlayDuration of the named player only,
Playing and PlayStarted included in what it keeps. -/
theorem player_invariant_preserved (players : List Player) (ops : List Op) (s : Subber)
    (hinit : ∀ p ∈ players, PlayerOK p) (hclk : ∀ op ∈ ops, op.ClockSet)
    (h : run (NewSubber players) ops = some s) :
    (∀ kv ∈ s.players, PlayerOK kv.2) ∧
    (∀ (name : String) (c : Int) (d : Duration),
      (PlayerSet s name c d).Game = s.Game ∧
      (PlayerSet s name c d).players = s.players.map (fun kv =>
        if kv.1 = name then (kv.1, { kv.2 with PlayCount := c, PlayDuration := d })
        else kv)) ∧
    (∀ (name : String) (number : Int),
      PlayerOK { Name := name, Number := number, PlayCount := 0, PlayDuration := 0,
                 Playing := false, PlayStarted := 0 }) := by
  refine ⟨AllPlayersOK_run (AllPlayersOK_NewSubber hinit) ops hclk h, ?_, ?_⟩
  · intro name c d
    rw [PlayerSet_eq_map (RosterOK_reachable h)]
    exact ⟨rfl, rfl⟩
  · intro name number
    simp [PlayerOK]

theorem player_invariant_preserved_witness :
    (∀ p ∈ [kunio, bob], PlayerOK p) ∧
    (∀ op ∈ [Op.StartGame (tickClock 1000), Op.PlayerSubOn "kunio" 2000], op.ClockSet) ∧
    run (NewSubber [kunio, bob])
      [Op.StartGame (tickClock 1000), Op.PlayerSubOn "kunio" 2000] = some kunioPlaying ∧
    (∀ kv ∈ kunioPlaying.players, PlayerOK kv.2) ∧
    (PlayerSet kunioPlaying "kunio" 5 7000).players =
      [("kunio", { kunio with PlayCount := 5, PlayDuration := 7000, Playing := true,
                              PlayStarted := 2000 }),
       ("bob", bob)] :=
  have hclk : ∀ op ∈ [Op.StartGame (tickClock 1000), Op.PlayerSubOn "kunio" 2000],
      op.ClockSet := by
    intro op hop
    simp only [List.mem_cons, List.mem_singleton, List.not_mem_nil, or_false] at hop
    rcases hop with hop | hop
    · rw [hop]
      exact tickClock_ne_zero (by decide)
    · rw [hop]
      show (2000 : Int) ≠ 0
      decide
  have key := player_invariant_preserved [kunio, bob]
    [Op.StartGame (tickClock 1000), Op.PlayerSubOn "kunio" 2000] kunioPlaying
    (by decide) hclk (by decide)
  ⟨by decide, hclk, by decide, key.1, by decide⟩

/-! ## The period invariant -/

theorem PeriodsOK_concat (init : List Period) (p : Period) :
    PeriodsOK (init ++ [p]) ↔ ∀ q ∈ init, q.EndTime ≠ 0 := by
  unfold PeriodsOK
  rw [List.dropLast_concat]

theorem PeriodsOK_nil : PeriodsOK [] := by
  simp [PeriodsOK]

theorem all_closed_of_not_InProgress {g : Game} (hok : PeriodsOK g.periods)
    (hst : g.State ≠ GameStateInProgress) : ∀ q ∈ g.periods, q.EndTime ≠ 0 := by
  by_cases hne : g.periods = []
  · rw [hne]
    simp
  · obtain ⟨init, p, hip⟩ := periods_eq_concat hne
    have hl : g.periods.getLast? = some p := by simp [hip]
    have hp : p.EndTime ≠ 0 := by
      intro h0
      apply hst
      rw [Game_State_last hl, if_pos h0]
    rw [hip] at hok ⊢
    have hinit := (PeriodsOK_concat init p).mp hok
    intro q hq
    rw [List.mem_append, List.mem_singleton] at hq
    rcases hq with hq | hq
    · exact hinit q hq
    · rw [hq]
      exact hp

theorem PeriodsOK_step {s s1 : Subber} (hs : PeriodsOK s.Game.periods) (op : Op)
    (hgate : ¬ (op.opensPeriod = true ∧ s.Game.State = GameStateInProgress))
    (h : step s op = some s1) : PeriodsOK s1.Game.periods := by
  cases op with
  | StartGame clk =>
    simp only [step, Option.some.injEq] at h
    have hst : s.Game.State ≠ GameStateInProgress := fun e => hgate ⟨rfl, e⟩
    rw [← h]
    unfold StartGame
    simp only
    rw [resetLoop_Game]
    exact (PeriodsOK_concat _ _).mpr (all_closed_of_not_InProgress hs hst)
  | ResumeGame clk =>
    simp only [step, Option.some.injEq] at h
    have hst : s.Game.State ≠ GameStateInProgress := fun e => hgate ⟨rfl, e⟩
    rw [← h]
    unfold ResumeGame
    simp only
    rw [subOffLoop_Game]
    exact (PeriodsOK_concat _ _).mpr (all_closed_of_not_InProgress hs hst)
  | PauseGame clk =>
    simp only [step] at h
    by_cases hne : s.Game.periods = []
    · simp [PauseGame, hne, setEndTime_nil] at h
    · obtain ⟨init, p, hip⟩ := periods_eq_concat hne
      rw [PauseGame_eq s clk init p hip] at h
      rw [← Option.some.inj h, subOffLoop_Game]
      rw [hip] at hs
      exact (PeriodsOK_concat _ _).mpr ((PeriodsOK_concat _ _).mp hs)
  | EndGame clk =>
    simp only [step] at h
    by_cases hne : s.Game.periods = []
    · simp [EndGame, hne, setEndTime_nil] at h
    · obtain ⟨init, p, hip⟩ := periods_eq_concat hne
      rw [EndGame_eq s clk init p hip] at h
      rw [← Option.some.inj h, subOffLoop_Game]
      rw [hip] at hs
      exact (PeriodsOK_concat _ _).mpr ((PeriodsOK_concat _ _).mp hs)
  | ResetGame =>
    simp only [step, Option.some.injEq] at h
    rw [← h]
    unfold ResetGame
    simp only
    rw [resetLoop_Game]
    exact PeriodsOK_nil
  | PlayerReset name =>
    simp only [step, Option.some.injEq] at h
    rw [← h, PlayerReset_Game]
    exact hs
  | PlayerSet name c d =>
    simp only [step, Option.some.injEq] at h
    rw [← h, PlayerSet_Game]
    exact hs
  | PlayerSubOn name now =>
    simp only [step, Option.some.injEq] at h
    rw [← h, PlayerSubOn_Game]
    exact hs
  | PlayerSubOff name now =>
    simp only [step, Option.some.injEq] at h
    rw [← h, PlayerSubOff_Game]
    exact hs

theorem runInOrder_run {s s1 : Subber} (ops : List Op) (h : runInOrder s ops = some s1) :
    run s ops = some s1 := by
  induction ops generalizing s with
  | nil => exact h
  | cons op rest ih =>
    simp only [runInOrder] at h
    split at h
    · cases h
    · simp only [run]
      split at h
      · cases h
      · rename_i s2 h2
        exact ih h

theorem PeriodsOK_runInOrder {s s1 : Subber} (hs : PeriodsOK s.Game.periods) (ops : List Op)
    (h : runInOrder s ops = some s1) : PeriodsOK s1.Game.periods := by
  induction ops generalizing s with
  | nil =>
    simp only [runInOrder, Option.some.injEq] at h
    rw [← h]
    exact hs
  | cons op rest ih =>
    simp only [runInOrder] at h
    split at h
    · cases h
    · rename_i hgate
      split at h
      · cases h
      · rename_i s2 h2
        exact ih (PeriodsOK_step hs op hgate h2) h

/-- C11, as stated, fails when `StartGame` is called while a period is open:
after two calls of `StartGame`, with set timestamps, the first of the two
periods has an unset EndTime and is not the last. -/
theorem StartGame_twice_leaves_open_period :
    (∀ i, tickClock 63871000000000001000 i ≠ 0) ∧
    (∀ i, tickClock 63871000000000006000 i ≠ 0) ∧
    run (NewSubber [kunio])
      [Op.StartGame (tickClock 63871000000000001000),
       Op.StartGame (tickClock 63871000000000006000)] = some startedTwice ∧
    startedTwice.Game.periods.dropLast =
      [{ StartTime := 63871000000000001000, EndTime := 0 }] ∧
    ¬ PeriodsOK startedTwice.Game.periods :=
  ⟨tickClock_ne_zero (by decide), tickClock_ne_zero (by decide), by decide, by decide,
   by decide⟩

/-- C11 (amended): in every state reached from `NewSubber` by a sequence of
StartGame, PauseGame, ResumeGame, EndGame, ResetGame and player operations in
which StartGame and ResumeGame are called only while the Game is not
InProgress, only the last period may have an unset EndTime: every earlier
period is closed. -/
theorem periods_invariant_in_order (players : List Player) (ops : List Op) (s : Subber)
    (h : runInOrder (NewSubber players) ops = some s) :
    run (NewSubber players) ops = some s ∧
    ∀ p ∈ s.Game.periods.dropLast, p.EndTime ≠ 0 :=
  ⟨runInOrder_run ops h, PeriodsOK_runInOrder PeriodsOK_nil ops h⟩

theorem periods_invariant_in_order_witness :
    runInOrder (NewSubber [kunio, bob])
      [Op.StartGame (tickClock 1000), Op.PlayerSubOn "kunio" 2000,
       Op.PauseGame (tickClock 3000), Op.ResumeGame (tickClock 4000)] = some kunioResumed ∧
    run (NewSubber [kunio, bob])
      [Op.StartGame (tickClock 1000), Op.PlayerSubOn "kunio" 2000,
       Op.PauseGame (tickClock 3000), Op.ResumeGame (tickClock 4000)] = some kunioResumed ∧
    ∀ p ∈ kunioResumed.Game.periods.dropLast, p.EndTime ≠ 0 :=
  ⟨by decide,
   periods_invariant_in_order [kunio, bob]
     [Op.StartGame (tickClock 1000), Op.PlayerSubOn "kunio" 2000,
      Op.PauseGame (tickClock 3000), Op.ResumeGame (tickClock 4000)] kunioResumed
     (by decide)⟩

/-! ## setPlayer on malformed forms -/

theorem drop_eq_cons {α : Type} {l : List α} {i : Nat} {a : α} {t : List α}
    (h : l.drop i = a :: t) : l[i]? = some a ∧ l.drop (i + 1) = t := by
  constructor
  · have h0 : (l.drop i)[0]? = some a := by rw [h]; simp
    rw [List.getElem?_drop] at h0
    simpa using h0
  · have h1 : (l.drop i).drop 1 = t := by rw [h]; rfl
    rw [List.drop_drop] at h1
    rw [← h1]

theorem setEntries_Game (s : Subber) (entries : List (String × Int × Duration)) :
    (setEntries s entries).Game = s.Game := by
  unfold setEntries
  induction entries generalizing s with
  | nil => rfl
  | cons e rest ih =>
    simp only [List.foldl_cons]
    rw [ih, PlayerSet_Game]

theorem leadingEntries_length_le (atoi : String → Option Int)
    (parseDuration : String → Option Duration) (names cs ds : List String) :
    (leadingEntries atoi parseDuration names cs ds).length ≤ names.length := by
  induction names generalizing cs ds with
  | nil => simp [leadingEntries]
  | cons name rest ih =>
    cases cs with
    | nil => simp [leadingEntries]
    | cons c cs =>
      cases ds with
      | nil => simp [leadingEntries]
      | cons d ds =>
        simp only [leadingEntries]
        split
        · simp only [List.length_cons]
          exact Nat.succ_le_succ (ih cs ds)
        · simp

theorem leadingEntries_bad_count {atoi : String → Option Int}
    {parseDuration : String → Option Duration} {c : String} (h : atoi c = none)
    (name d : String) (names cs ds : List String) :
    leadingEntries atoi parseDuration (name :: names) (c :: cs) (d :: ds) = [] := by
  simp [leadingEntries, h]

theorem leadingEntries_bad_duration {atoi : String → Option Int}
    {parseDuration : String → Option Duration} {d : String} (h : parseDuration d = none)
    (name c : String) (names cs ds : List String) :
    leadingEntries atoi parseDuration (name :: names) (c :: cs) (d :: ds) = [] := by
  simp only [leadingEntries, h]
  split
  · rename_i h2
    cases h2
  · rfl

theorem leadingEntries_good {atoi : String → Option Int}
    {parseDuration : String → Option Duration} {c d : String} {count : Int}
    {duration : Duration} (hc : atoi c = some count) (hd : parseDuration d = some duration)
    (name : String) (names cs ds : List String) :
    leadingEntries atoi parseDuration (name :: names) (c :: cs) (d :: ds) =
      (name, count, duration) :: leadingEntries atoi parseDuration names cs ds := by
  simp [leadingEntries, hc, hd]

theorem setPlayerLoop_eq (atoi : String → Option Int)
    (parseDuration : String → Option Duration) (playCounts playDurations : List String)
    (names cs ds : List String) (idx : Nat) (s : Subber)
    (hc : playCounts.drop idx = cs) (hd : playDurations.drop idx = ds)
    (hlc : names.length = cs.length) (hld : names.length = ds.length) :
    setPlayerLoop atoi parseDuration playCounts playDurations names idx s =
      (setEntries s (leadingEntries atoi parseDuration names cs ds),
       if (leadingEntries atoi parseDuration names cs ds).length = names.length then none
       else some (Reply.status StatusBadRequest)) := by
  induction names generalizing cs ds idx s with
  | nil => simp [setPlayerLoop, leadingEntries, setEntries]
  | cons name rest ih =>
    cases cs with
    | nil => simp at hlc
    | cons c cs =>
      cases ds with
      | nil => simp at hld
      | cons d ds =>
        obtain ⟨hc0, hc1⟩ := drop_eq_cons hc
        obtain ⟨hd0, hd1⟩ := drop_eq_cons hd
        simp only [List.length_cons, Nat.add_right_cancel_iff] at hlc hld
        rcases Option.eq_none_or_eq_some (atoi c) with ha | ⟨count, ha⟩
        · rw [leadingEntries_bad_count ha]
          simp [setPlayerLoop, hc0, ha, setEntries]
        · rcases Option.eq_none_or_eq_some (parseDuration d) with hp | ⟨duration, hp⟩
          · rw [leadingEntries_bad_duration hp]
            simp [setPlayerLoop, hc0, hd0, ha, hp, setEntries]
          · rw [leadingEntries_good ha hp]
            simp only [setPlayerLoop, hc0, hd0, ha, hp]
            rw [ih cs ds (idx + 1) _ hc1 hd1 hlc hld]
            simp [setEntries]

theorem leadingEntries_short_of_bad (atoi : String → Option Int)
    (parseDuration : String → Option Duration) (names cs ds : List String)
    (hlc : names.length = cs.length) (hld : names.length = ds.length)
    (hbad : (∃ c ∈ cs, atoi c = none) ∨ (∃ d ∈ ds, parseDuration d = none)) :
    (leadingEntries atoi parseDuration names cs ds).length ≠ names.length := by
  induction names generalizing cs ds with
  | nil =>
    cases cs with
    | nil =>
      cases ds with
      | nil => simp at hbad
      | cons d ds => simp at hld
    | cons c cs => simp at hlc
  | cons name rest ih =>
    cases cs with
    | nil => simp at hlc
    | cons c cs =>
      cases ds with
      | nil => simp at hld
      | cons d ds =>
        simp only [List.length_cons, Nat.add_right_cancel_iff] at hlc hld
        rcases Option.eq_none_or_eq_some (atoi c) with ha | ⟨count, ha⟩
        · rw [leadingEntries_bad_count ha]
          simp
        · rcases Option.eq_none_or_eq_some (parseDuration d) with hp | ⟨duration, hp⟩
          · rw [leadingEntries_bad_duration hp]
            simp
          · rw [leadingEntries_good ha hp]
            simp only [List.length_cons, ne_eq, Nat.add_right_cancel_iff]
            apply ih cs ds hlc hld
            rcases hbad with ⟨c2, hc2, hc2n⟩ | ⟨d2, hd2, hd2n⟩
            · left
              rw [List.mem_cons] at hc2
              rcases hc2 with e | hmem
              · rw [e, ha] at hc2n
                cases hc2n
              · exact ⟨c2, hmem, hc2n⟩
            · right
              rw [List.mem_cons] at hd2
              rcases hd2 with e | hmem
              · rw [e, hp] at hd2n
                cases hd2n
              · exact ⟨d2, hmem, hd2n⟩

/-- C13, as stated, fails on a bad entry that comes after a good one: for the
form `playerName = kunio, bob`, `playCount = 3, x`, `playDuration = 90s, 90s`
the handler replies 400, and `kunio`, listed before the malformed entry, has
been set to PlayCount 3 and PlayDuration 90s. -/
theorem setPlayer_not_atomic :
    Atoi "3" = some 3 ∧ Atoi "x" = none ∧ parseDurationSeconds "90s" = some 90000000000 ∧
    setPlayer Atoi parseDurationSeconds (NewSubber [kunio, bob])
        (some ⟨["kunio", "bob"], ["3", "x"], ["90s", "90s"]⟩) =
      ({ Game := { StartTime := 0, EndTime := 0, periods := [] },
         players := [("kunio", { kunio with PlayCount := 3, PlayDuration := 90000000000 }),
                     ("bob", bob)] },
       Reply.status 400) ∧
    (setPlayer Atoi parseDurationSeconds (NewSubber [kunio, bob])
        (some ⟨["kunio", "bob"], ["3", "x"], ["90s", "90s"]⟩)).1 ≠ NewSubber [kunio, bob] := by
  decide

/-- The length check of `setPlayer` joins its two comparisons with `&&`, so a
form passes it when `playerName` is as long as one of the other two lists.
With a shorter `playDuration` the loop faults at the missing value, after
setting the players before it, and no status is written; with a longer
`playCount` the loop runs to its end and the reply is 200. -/
theorem setPlayer_length_check_slip :
    setPlayer Atoi parseDurationSeconds (NewSubber [kunio, bob])
        (some ⟨["kunio", "bob"], ["3", "4"], ["90s"]⟩) =
      ({ Game := { StartTime := 0, EndTime := 0, periods := [] },
         players := [("kunio", { kunio with PlayCount := 3, PlayDuration := 90000000000 }),
                     ("bob", bob)] },
       Reply.fault) ∧
    setPlayer Atoi parseDurationSeconds (NewSubber [kunio, bob])
        (some ⟨["kunio"], ["3", "4"], ["90s"]⟩) =
      ({ Game := { StartTime := 0, EndTime := 0, periods := [] },
         players := [("kunio", { kunio with PlayCount := 3, PlayDuration := 90000000000 }),
                     ("bob", bob)] },
       Reply.status 200) := by
  decide

/-- C13 (amended): for a form whose three lists have the same length,
`setPlayer` does not fault; if some playCount is not a valid integer or some
playDuration is not a valid duration it replies 400, and otherwise 200; the
Subber it leaves is the one given with `PlayerSet` applied, in order, to the
entries listed before the first malformed one (the Game is untouched), so it is
the Subber given when the first entry is malformed. A form whose `playerName`
list differs in length from both other lists, and a request whose form cannot
be parsed, are answered 400 with the Subber unchanged. -/
theorem setPlayer_on_malformed_input (atoi : String → Option Int)
    (parseDuration : String → Option Duration) (s : Subber)
    (names counts durs : List String)
    (hlc : names.length = counts.length) (hld : names.length = durs.length) :
    (setPlayer atoi parseDuration s (some ⟨names, counts, durs⟩)).2 ≠ Reply.fault ∧
    (((∃ c ∈ counts, atoi c = none) ∨ (∃ d ∈ durs, parseDuration d = none)) →
      (setPlayer atoi parseDuration s (some ⟨names, counts, durs⟩)).2 =
        Reply.status StatusBadRequest) ∧
    ((leadingEntries atoi parseDuration names counts durs).length = names.length →
      (setPlayer atoi parseDuration s (some ⟨names, counts, durs⟩)).2 =
        Reply.status StatusOK) ∧
    (setPlayer atoi parseDuration s (some ⟨names, counts, durs⟩)).1 =
      setEntries s (leadingEntries atoi parseDuration names counts durs) ∧
    (setPlayer atoi parseDuration s (some ⟨names, counts, durs⟩)).1.Game = s.Game ∧
    (leadingEntries atoi parseDuration names counts durs = [] →
      (setPlayer atoi parseDuration s (some ⟨names, counts, durs⟩)).1 = s) ∧
    (∀ names2 counts2 durs2 : List String, names2.length ≠ counts2.length →
      names2.length ≠ durs2.length →
      setPlayer atoi parseDuration s (some ⟨names2, counts2, durs2⟩) =
        (s, Reply.status StatusBadRequest)) ∧
    setPlayer atoi parseDuration s none = (s, Reply.status StatusBadRequest) := by
  have hloop := setPlayerLoop_eq atoi parseDuration counts durs names counts durs 0 s
    (by simp) (by simp) hlc hld
  have hcheck : ¬ (names.length ≠ counts.length ∧ names.length ≠ durs.length) :=
    fun hc => hc.1 hlc
  have hout : setPlayer atoi parseDuration s (some ⟨names, counts, durs⟩) =
      (setEntries s (leadingEntries atoi parseDuration names counts durs),
       if (leadingEntries atoi parseDuration names counts durs).length = names.length
       then Reply.status StatusOK else Reply.status StatusBadRequest) := by
    simp only [setPlayer, hcheck, if_false, hloop]
    split <;> rename_i heq
    · split at heq <;> simp_all
    · split at heq <;> simp_all
  rw [hout]
  refine ⟨?_, ?_, ?_, rfl, setEntries_Game _ _, ?_, ?_, rfl⟩
  · simp only
    split <;> simp
  · intro hbad
    simp only
    rw [if_neg (leadingEntries_short_of_bad atoi parseDuration names counts durs hlc hld hbad)]
  · intro hall
    simp only
    rw [if_pos hall]
  · intro hnil
    simp only [hnil]
    rfl
  · intro names2 counts2 durs2 h1 h2
    simp [setPlayer, h1, h2]

theorem setPlayer_on_malformed_input_witness :
    ["kunio", "bob"].length = ["x", "4"].length ∧
    ["kunio", "bob"].length = ["90s", "90s"].length ∧
    (setPlayer Atoi parseDurationSeconds kunioPlaying
        (some ⟨["kunio", "bob"], ["x", "4"], ["90s", "90s"]⟩)).2 =
      Reply.status StatusBadRequest ∧
    (setPlayer Atoi parseDurationSeconds kunioPlaying
        (some ⟨["kunio", "bob"], ["x", "4"], ["90s", "90s"]⟩)).1 = kunioPlaying :=
  have key := setPlayer_on_malformed_input Atoi parseDurationSeconds kunioPlaying
    ["kunio", "bob"] ["x", "4"] ["90s", "90s"] (by decide) (by decide)
  ⟨by decide, by decide, key.2.1 (Or.inl ⟨"x", by decide, by decide⟩),
   key.2.2.2.2.2.1 (by decide)⟩

/-! ## loadConfig -/

theorem decodeConfig_no_players (members : List (String × JSON)) (c : Config)
    (h : ∀ m ∈ members, foldName m.1 ≠ foldName "players") :
    decodeConfig (.obj members) c = .ok c := by
  unfold decodeConfig
  simp only
  induction members with
  | nil => rfl
  | cons m rest ih =>
    have hm := h m (List.mem_cons_self _ _)
    simp only [List.foldl_cons, decodeConfigMember, Decoded.andThen, hm, if_false]
    exact ih (fun x hx => h x (List.mem_cons_of_mem _ hx))

/-- C14, as stated, fails in two ways. The input made of an empty object
followed by the letter x is not a well-formed document, and `loadConfig`
reads the object alone and returns the default Config with no error. The
document with the one entry of name kunio and number 9223372036854775808 is
well formed, and `loadConfig` returns an error, the number being outside the
range of `int`. -/
theorem loadConfig_trailing_text_and_large_number :
    (Document.value (.obj []) "x").WellFormed = false ∧
    loadConfig (.value (.obj []) "x") = some { cfg := DefaultConfiguration, failed := false } ∧
    (Document.value (configDoc [("kunio", 9223372036854775808)]) "").WellFormed = true ∧
    IsConfigDoc (configDoc [("kunio", 9223372036854775808)])
      [("kunio", 9223372036854775808)] ∧
    loadConfig (.value (configDoc [("kunio", 9223372036854775808)]) "") =
      some { cfg := { Players := [] }, failed := true } :=
  ⟨by decide, by decide, by decide,
   ⟨"players", [], [], [entryDoc ("kunio", 9223372036854775808)], rfl, by simp, by simp,
    List.Forall₂.cons ⟨"name", "number", by decide, by decide, Or.inl rfl⟩ List.Forall₂.nil,
    rfl⟩,
   by decide⟩

theorem decodePlayer_of_IsEntryDoc {v : JSON} {e : String × Int} (hv : IsEntryDoc v e)
    (h1 : minInt64 ≤ e.2) (h2 : e.2 ≤ maxInt64) :
    decodePlayer v zeroPlayer = .ok (entryPlayer e) := by
  obtain ⟨kname, knumber, hn, hk, hv | hv⟩ := hv
  all_goals
    have k4 : ¬ foldName "Number" = foldName "Name" := by decide
    rw [hv]
    simp [decodePlayer, decodePlayerMember, Decoded.andThen, decodeString,
      decodeInt, hn, hk, k4, h1, h2, zeroPlayer, entryPlayer]

theorem decodeItems_of_entries {items : List JSON} {entries : List (String × Int)}
    (hitems : List.Forall₂ IsEntryDoc items entries)
    (h : ∀ e ∈ entries, minInt64 ≤ e.2 ∧ e.2 ≤ maxInt64) :
    decodeItems items = .ok (entries.map entryPlayer) := by
  induction hitems with
  | nil => rfl
  | @cons v e vs es hv _ ih =>
    have he := h e (List.mem_cons_self _ _)
    have hrest := ih (fun x hx => h x (List.mem_cons_of_mem _ hx))
    simp [decodeItems, decodePlayer_of_IsEntryDoc hv he.1 he.2, hrest, Decoded.andThen]

theorem foldl_decodeConfigMember_skip (members : List (String × JSON)) (c : Config)
    (h : ∀ m ∈ members, foldName m.1 ≠ foldName "players") :
    members.foldl decodeConfigMember (.ok c) = .ok c := by
  induction members with
  | nil => rfl
  | cons m rest ih =>
    have hm := h m (List.mem_cons_self _ _)
    simp only [List.foldl_cons, decodeConfigMember, Decoded.andThen, hm, if_false]
    exact ih (fun x hx => h x (List.mem_cons_of_mem _ hx))

theorem decodeConfig_of_IsConfigDoc {v : JSON} {entries : List (String × Int)}
    (hv : IsConfigDoc v entries) (h : ∀ e ∈ entries, minInt64 ≤ e.2 ∧ e.2 ≤ maxInt64) :
    decodeConfig v DefaultConfiguration = .ok { Players := entries.map entryPlayer } := by
  obtain ⟨kp, pre, post, items, hk, hpre, hpost, hitems, hv⟩ := hv
  rw [hv]
  simp only [decodeConfig, List.foldl_append, List.foldl_cons]
  rw [foldl_decodeConfigMember_skip pre _ hpre]
  have hmid : decodeConfigMember (.ok DefaultConfiguration) (kp, .arr items) =
      .ok { Players := entries.map entryPlayer } := by
    simp [decodeConfigMember, Decoded.andThen, hk, decodePlayers, DefaultConfiguration,
      decodeItems_of_entries hitems h]
  rw [hmid]
  exact foldl_decodeConfigMember_skip post _ hpost

/-- C14 (amended): for every configuration document with player entries
(name, number) whose numbers are in the range of `int`, `loadConfig` returns
no error and a Config whose Players are exactly those entries, in order, with
every other field zero; for an object with no players member, the empty object
among them, it returns the default Config, the empty list of players; the
Subber `NewSubber` builds from that Config has an empty roster, `ListPlayers`
returns the empty list and the Game is NotStarted. An input that does not
begin with a JSON value, or whose value does not decode into a Config, gives
an error and the zero Config. All of this holds whatever text follows the
first JSON value, which is not read. -/
theorem loadConfig_spec (v : JSON) (entries : List (String × Int))
    (members : List (String × JSON)) (trailing : String)
    (hdoc : IsConfigDoc v entries)
    (hrange : ∀ e ∈ entries, minInt64 ≤ e.2 ∧ e.2 ≤ maxInt64)
    (habsent : ∀ m ∈ members, foldName m.1 ≠ foldName "players") :
    loadConfig (.value v trailing) =
      some { cfg := { Players := entries.map entryPlayer }, failed := false } ∧
    loadConfig (.value (.obj members) trailing) =
      some { cfg := DefaultConfiguration, failed := false } ∧
    loadConfig (.value (.obj []) trailing) =
      some { cfg := DefaultConfiguration, failed := false } ∧
    DefaultConfiguration.Players = [] ∧
    (NewSubber DefaultConfiguration.Players).players = [] ∧
    (∀ clk : Nat → Time, ListPlayers (NewSubber DefaultConfiguration.Players) clk = []) ∧
    (NewSubber DefaultConfiguration.Players).Game.State = GameStateNotStarted ∧
    loadConfig .malformed = some { cfg := { Players := [] }, failed := true } ∧
    (∀ w : JSON, decodeConfig w DefaultConfiguration = .error →
      loadConfig (.value w trailing) = some { cfg := { Players := [] }, failed := true }) := by
  refine ⟨?_, ?_, ?_, rfl, rfl, fun clk => rfl, Game_State_nil rfl, rfl, ?_⟩
  · simp [loadConfig, decodeConfig_of_IsConfigDoc hdoc hrange]
  · simp [loadConfig, decodeConfig_no_players members DefaultConfiguration habsent]
  · simp [loadConfig, decodeConfig_no_players [] DefaultConfiguration (by simp)]
  · intro w hw
    simp [loadConfig, hw]

/-- The document of `TestLoadConfig_OverrideField`, with the key `Players` and
the one entry of name kunio and number 86, followed by a line end. -/
theorem loadConfig_spec_witness :
    IsConfigDoc (.obj [("Players", .arr [.obj [("name", .str "kunio"), ("number", .int 86)]])])
      [("kunio", 86)] ∧
    (∀ e ∈ [("kunio", (86 : Int))], minInt64 ≤ e.2 ∧ e.2 ≤ maxInt64) ∧
    (∀ m ∈ [("version", JSON.int 1)], foldName m.1 ≠ foldName "players") ∧
    loadConfig (.value
        (.obj [("Players", .arr [.obj [("name", .str "kunio"), ("number", .int 86)]])]) "\n") =
      some { cfg := { Players := [entryPlayer ("kunio", 86)] }, failed := false } ∧
    entryPlayer ("kunio", 86) = kunio ∧
    loadConfig (.value (.obj [("version", JSON.int 1)]) "\n") =
      some { cfg := DefaultConfiguration, failed := false } :=
  have hdoc : IsConfigDoc
      (.obj [("Players", .arr [.obj [("name", .str "kunio"), ("number", .int 86)]])])
      [("kunio", 86)] :=
    ⟨"Players", [], [], [.obj [("name", .str "kunio"), ("number", .int 86)]],
      by decide, by simp, by simp,
      List.Forall₂.cons ⟨"name", "number", by decide, by decide, Or.inl rfl⟩ List.Forall₂.nil,
      rfl⟩
  have key := loadConfig_spec _ [("kunio", 86)] [("version", JSON.int 1)] "\n" hdoc
    (by decide) (by decide)
  ⟨hdoc, by decide, by decide, key.1, by decide, key.2.1⟩

end Gosubs
